import Mathlib

/-!
Verification of the lorekeeper log-rotation library.

This file gives a shallow embedding of the library's core: the `Keeper`
data model, the write path (`Write`), the rotation sequence (`rotate`),
close (`Close`), construction and reconfiguration (`New` / `applyOpts`
over a process registry), the archive-name template engine
(`newArchiveName` / `getArchiveGlobPattern`), and the archive index
(`getArchives` / `getFileInfo`).

Modelling conventions:
  * The filesystem is an association list from paths to files; a file is
    a byte list plus a modification time (`Nat` clock values supplied by
    the callers, standing in for `time.Now`).
  * Go's text/template is embedded as the segment language actually used
    by the library: literal text and the actions referencing `.time`,
    `.name`, `.extension` (an action naming an unknown field renders as
    "<no value>", as text/template does over a map).
  * Machine integers (`int`) are embedded as `Int`; sizes are byte-list
    lengths, so overflow is irrelevant.
  * Go methods that mutate the receiver in place are embedded as
    functions returning the post-state *also on error*, so partial
    mutation before a failure is observable, as it is in Go.
  * `filepath.Glob` pattern matching is embedded for the pattern subset
    the library generates: `*` matches any run of non-separator
    characters, every other character matches itself.
  * The cron scheduler and the per-instance mutex are concurrency
    facilities and are not part of the sequential model; `NoCron` is the
    identity, `WithCron` is not modelled.
-/

namespace Lorekeeper

/-! ## Errors -/

/-- Error values. `wrap` models `fmt.Errorf(..., %w)` wrapping. -/
inductive Err : Type where
  | closed : Err
  | notFound (path : String) : Err
  | dequeueEmpty : Err
  | badTemplate : Err
  | badGzipLevel : Err
  | emptyPattern : Err
  | compressFail : Err
  | statFail : Err
  /-- `path/filepath.ErrBadPattern`: a malformed glob pattern. -/
  | badPattern : Err
  | wrap (msg : String) (cause : Err) : Err
deriving DecidableEq, Repr

/-- The innermost error of a wrap chain. -/
def Err.root : Err → Err
  | .wrap _ e => e.root
  | e => e

/-- Errors surfaced by option application at configuration time. -/
def Err.isConfig (e : Err) : Bool :=
  match e.root with
  | .badTemplate => true
  | .badGzipLevel => true
  | _ => false

/-- Whether the root cause of an error is the closed-file error. -/
def Err.rootIsClosed (e : Err) : Bool :=
  match e.root with
  | .closed => true
  | _ => false

instance {ε α : Type} [DecidableEq ε] [DecidableEq α] :
    DecidableEq (Except ε α) := fun x y =>
  match x, y with
  | .ok a, .ok b =>
    if h : a = b then isTrue (by rw [h])
    else isFalse (by intro hc; cases hc; exact h rfl)
  | .error a, .error b =>
    if h : a = b then isTrue (by rw [h])
    else isFalse (by intro hc; cases hc; exact h rfl)
  | .ok _, .error _ => isFalse (by intro hc; cases hc)
  | .error _, .ok _ => isFalse (by intro hc; cases hc)

/-! ## Filesystem model -/

/-- A regular file: its bytes and its modification time. -/
structure FsFile : Type where
  content : List Nat
  modtime : Nat
deriving DecidableEq, Repr

/-- A filesystem: an association list from paths to files. -/
def FS : Type := List (String × FsFile)

instance : DecidableEq FS := by unfold FS; infer_instance

/-- Look a path up in the filesystem (first match). -/
def FS.lookup (fs : FS) (p : String) : Option FsFile :=
  match fs with
  | [] => none
  | (q, f) :: rest => if q = p then some f else FS.lookup rest p

/-- Remove every entry at a path. -/
def FS.removeFile (fs : FS) (p : String) : FS :=
  fs.filter (fun e => decide (e.1 ≠ p))

/-- Install a file at a path, replacing any previous entry. -/
def FS.setFile (fs : FS) (p : String) (f : FsFile) : FS :=
  (p, f) :: fs.removeFile p

/-- `os.Rename(old, new)`: fails if nothing is at `old`; replaces `new`.
Renaming a path to itself succeeds and leaves the file in place, and the
modification time is preserved, as with `os.Rename`. -/
def osRename (oldPath newPath : String) (fs : FS) : Except Err FS :=
  match fs.lookup oldPath with
  | none => .error (.notFound oldPath)
  | some f => .ok ((fs.removeFile oldPath).setFile newPath f)

/-- `os.Remove(p)`: fails if nothing is at `p`. -/
def osRemove (p : String) (fs : FS) : Except Err FS :=
  match fs.lookup p with
  | none => .error (.notFound p)
  | some _ => .ok (fs.removeFile p)

/-- An open-file handle, as held in `Keeper.currentFile`. -/
structure Handle : Type where
  path : String
  isOpen : Bool
deriving DecidableEq, Repr

/-- `os.OpenFile(p, O_APPEND|O_CREATE|O_WRONLY, 0644)`: creates an empty
file when none exists (with the supplied current time as its
modification time), otherwise leaves the existing file untouched. -/
def openAppend (p : String) (fs : FS) (now : Nat) : FS × Handle :=
  match fs.lookup p with
  | some _ => (fs, ⟨p, true⟩)
  | none => (fs.setFile p ⟨[], now⟩, ⟨p, true⟩)

/-- `(*os.File).Close`: closing an already-closed file fails with the
closed-file error. -/
def fsClose (h : Handle) : Except Err Handle :=
  if h.isOpen then .ok ⟨h.path, false⟩ else .error .closed

/-- `(*os.File).Write` on an append-mode handle: fails with the
closed-file error on a closed handle, otherwise appends the bytes and
returns the count written. -/
def fsWrite (h : Handle) (msg : List Nat) (now : Nat) (fs : FS) :
    Except Err (Nat × FS) :=
  if h.isOpen then
    match fs.lookup h.path with
    | some f => .ok (msg.length, fs.setFile h.path ⟨f.content ++ msg, now⟩)
    | none => .ok (msg.length, fs.setFile h.path ⟨msg, now⟩)
  else .error .closed

/-! ## Archive-name templates

The library parses archive-name layouts with text/template and only ever
executes them against the map with keys `time`, `name`, `extension`.
The embedding compiles a layout to a list of segments. -/

/-- One compiled segment of an archive-name layout. -/
inductive Segment : Type where
  | lit (s : String) : Segment
  | timeVar : Segment
  | nameVar : Segment
  | extVar : Segment
  /-- An action naming a field absent from the execution map; it renders
  as "<no value>", as text/template renders missing map keys. -/
  | novalue : Segment
deriving DecidableEq, Repr

/-- A compiled archive-name layout. -/
def Template : Type := List Segment

instance : DecidableEq Template := by unfold Template; infer_instance

/-- Skip blanks inside an action. -/
def skipSpaces : List Char → List Char
  | ' ' :: rest => skipSpaces rest
  | cs => cs

/-- Collect a run of identifier characters. -/
def takeIdent : List Char → String × List Char
  | c :: rest =>
    if c.isAlphanum ∨ c = '_' then
      let (s, rest') := takeIdent rest
      (String.mk [c] ++ s, rest')
    else ("", c :: rest)
  | [] => ("", [])

/-- Parse the inside of an action: blanks, a dot, a field name, blanks,
then the closing braces.  Any other action form is a parse error (the
library's layouts only use field references). -/
def parseAction (cs : List Char) : Option (Segment × List Char) :=
  match skipSpaces cs with
  | '.' :: rest =>
    let (ident, rest') := takeIdent rest
    if ident = "" then none
    else
      match skipSpaces rest' with
      | '}' :: '}' :: rest'' =>
        let seg :=
          if ident = "time" then Segment.timeVar
          else if ident = "name" then Segment.nameVar
          else if ident = "extension" then Segment.extVar
          else Segment.novalue
        some (seg, rest'')
      | _ => none
  | _ => none

/-- Fuel-indexed layout scanner: literals become single-character
segments; "\x7b\x7b" opens an action. -/
def parseSegs : Nat → List Char → Option Template
  | _, [] => some []
  | 0, _ => none
  | fuel + 1, c :: rest =>
    if c = '{' then
      match rest with
      | '{' :: r2 =>
        match parseAction r2 with
        | none => none
        | some (seg, r3) =>
          match parseSegs fuel r3 with
          | none => none
          | some segs => some (seg :: segs)
      | _ =>
        match parseSegs fuel rest with
        | none => none
        | some segs => some (Segment.lit (String.mk [c]) :: segs)
    else
      match parseSegs fuel rest with
      | none => none
      | some segs => some (Segment.lit (String.mk [c]) :: segs)

/-- `template.New(...).Parse(layout)` for the library's layout subset. -/
def parseLayout (layout : String) : Option Template :=
  parseSegs (layout.length + 1) layout.toList

/-- Render one segment against the execution map. -/
def segRender (timeS nameS extS : String) : Segment → String
  | .lit s => s
  | .timeVar => timeS
  | .nameVar => nameS
  | .extVar => extS
  | .novalue => "<no value>"

/-- `tmpl.Execute` against the map with keys time, name, extension. -/
def render (t : Template) (timeS nameS extS : String) : String :=
  (t.map (segRender timeS nameS extS)).foldl (fun a s => a ++ s) ""

/-! ## Glob matching

`filepath.Glob` semantics for the patterns this library produces: `*`
matches any (possibly empty) run of characters other than the path
separator `/`; any other character matches itself only. -/

/-- Fuel-indexed matcher; the fuel only needs to exceed the combined
length of pattern and candidate. -/
def globMatchF : Nat → List Char → List Char → Bool
  | 0, _, _ => false
  | _ + 1, [], s => s.isEmpty
  | fuel + 1, c :: p, s =>
    if c = '*' then
      globMatchF fuel p s ||
        (match s with
         | [] => false
         | c' :: s' => decide (c' ≠ '/') && globMatchF fuel (c :: p) s')
    else
      match s with
      | [] => false
      | c' :: s' => decide (c = c') && globMatchF fuel p s'

/-- Whether glob pattern `pat` matches the path `s`. -/
def globMatch (pat s : String) : Bool :=
  globMatchF (pat.length + s.length + 1) pat.toList s.toList

/-- Matchability at some fuel; equivalent to `globMatch` (see
`globMatch_iff_GM`). -/
def GM (p s : List Char) : Prop := ∃ fuel, globMatchF fuel p s = true

/-- `path.Join` of two elements, for the non-empty cleaned components
the library passes it. -/
def pathJoin (a b : String) : String :=
  if a = "" then b else if b = "" then a else a ++ "/" ++ b

/-! ## filepath.Match (path/filepath/match.go)

The matcher `filepath.Glob` applies to each candidate path, embedded
character by character: `*` and `?` wildcards, `[...]` character classes
with ranges and `^` negation, `\` escapes (the non-Windows behaviour),
and `ErrBadPattern` for malformed patterns.  Strings are treated at the
rune level, as everywhere in this development. -/

/-- Kibibytes. -/
def Kb : Int := 1024
/-- Kilobytes. -/
def KB : Int := 1000
/-- Mebibytes. -/
def Mb : Int := 1048576
/-- Megabytes. -/
def MB : Int := 1000000

/-! ## Archive index (files.go) -/

/-- One archive record: path, size and modification time. -/
structure FileInfo : Type where
  filePath : String
  size : Int
  modtime : Nat
deriving DecidableEq, Repr

/-- `getFileInfo(filePath)`: stat one path; fails if nothing is there. -/
def getFileInfo (filePath : String) (fs : FS) : Option FileInfo :=
  match fs.lookup filePath with
  | none => none
  | some f => some ⟨filePath, (f.content.length : Int), f.modtime⟩

/-- The heap comparator: ordered by modification time. -/
def fiLe (a b : FileInfo) : Prop := a.modtime ≤ b.modtime

instance : DecidableRel fiLe := fun a b => Nat.decLe a.modtime b.modtime

instance : IsTotal FileInfo fiLe := ⟨fun a b => Nat.le_total a.modtime b.modtime⟩

instance : IsTrans FileInfo fiLe := ⟨fun _ _ _ h1 h2 => Nat.le_trans h1 h2⟩

/-- The paths in the filesystem matched by a glob pattern
(`filepath.Glob`). -/
def globMatches (pattern : String) (fs : FS) : List String :=
  (fs.map Prod.fst).filter (fun p => globMatch pattern p)

/-- The body of `getArchives` once the match list is known: stat every
match, pushing each record into the min-heap keyed by modification time
(embedded as an insertion sort with the same comparator), then drain
ascending, summing the sizes; any failing stat aborts the whole scan. -/
def getArchivesFrom (paths : List String) (fs : FS) :
    Option (List FileInfo × Int) :=
  match paths.mapM (fun m => getFileInfo m fs) with
  | none => none
  | some infos =>
    let drained := List.insertionSort fiLe infos
    some (drained, drained.foldl (fun acc i => acc + i.size) 0)

/-- `getArchives(pattern)`: oldest-first records and their total size. -/
def getArchives (pattern : String) (fs : FS) : Option (List FileInfo × Int) :=
  getArchivesFrom (globMatches pattern fs) fs

/-! ## The Keeper -/

/-- The `Keeper` state.  The cron scheduler fields and the mutex are the
concurrency machinery and are outside the sequential model. -/
structure Keeper : Type where
  folder : String
  name : String
  extension : String
  timeLayout : String
  maxSize : Int
  archiveNameLayout : Template
  maxFiles : Int
  /-- Presence of a compression strategy; the codec itself is an external
  collaborator, embedded as an opaque byte transform. -/
  compressorContructor : Option (List Nat → List Nat)
  compressionExt : String
  totalSize : Int
  currentFile : Handle
  currentFileSize : Int
  archives : List FileInfo
  archivesSize : Int

/-- The path of the current log file: `<folder>/<name><extension>`. -/
def currentFilePath (k : Keeper) : String :=
  pathJoin k.folder (k.name ++ k.extension)

/-- `newArchiveName` with the formatted rotation timestamp supplied by
the caller (the formatting of `now()` itself is environmental). -/
def newArchiveName (k : Keeper) (timeStr : String) : String :=
  pathJoin k.folder (render k.archiveNameLayout timeStr k.name k.extension)

/-- `getArchiveGlobPattern`: render the layout with `*` for the time,
then append a `*` when the rendered pattern does not already end in one,
so compressed files carrying the compression suffix are also matched.
The source indexes the last byte of the rendered pattern, which panics
on an empty render; that is embedded as `none`. -/
def Keeper.getArchiveGlobPattern (k : Keeper) : Option String :=
  let pattern := render k.archiveNameLayout "*" k.name k.extension
  match pattern.toList.getLast? with
  | none => none
  | some c =>
      if c = '*' then some (pathJoin k.folder pattern)
      else some (pathJoin k.folder (pattern ++ "*"))

/-- `shouldRotate`: size-rotation is enabled and the incoming message
would push the current file strictly beyond the limit. -/
def Keeper.shouldRotate (k : Keeper) (nextMsg : List Nat) : Bool :=
  k.maxSize > 0 && k.currentFileSize + (nextMsg.length : Int) > k.maxSize

/-- `shouldDeleteOldest` over the components the eviction loop mutates. -/
def shouldDeleteOldestB (ts mf asize : Int) (count : Nat) : Bool :=
  (ts > 0 && ts < asize) || (mf > 0 && mf < (count : Int))

/-- `shouldDeleteOldest`: either retention limit is enabled and violated. -/
def Keeper.shouldDeleteOldest (k : Keeper) : Bool :=
  shouldDeleteOldestB k.totalSize k.maxFiles k.archivesSize k.archives.length

/-! ## Options (opts.go) -/

/-- The option constructors the library exports (minus `WithCron`, which
only schedules the concurrent trigger). -/
inductive Opt : Type where
  | withFolder (path : String) : Opt
  | withName (name : String) : Opt
  | withExtension (extension : String) : Opt
  | withTimeLayout (layout : String) : Opt
  | withMaxSize (size : Int) : Opt
  | withArchiveNameLayout (layout : String) : Opt
  | withMaxFiles (size : Int) : Opt
  | noCron : Opt
  | withGzipLevel (level : Int) : Opt
  | noCompression : Opt
  | withTotalSize (size : Int) : Opt

/-- `strings.ReplaceAll(strings.ToLower(name), " ", "-")`; both Go
functions act rune-wise, embedded character-wise. -/
def sanitizeName (s : String) : String :=
  String.mk (s.toList.map (fun c => if c = ' ' then '-' else c.toLower))

/-- The gzip codec at a level: external to the library, embedded as an
opaque transform (the model never inspects compressed bytes). -/
def gzipModel (_level : Int) : List Nat → List Nat := fun c => c

/-- Apply one option to a keeper.  Failing options (`withArchiveNameLayout`
on a bad layout, `withGzipLevel` on a bad level) fail before mutating. -/
def applyOpt (o : Opt) (k : Keeper) : Except Err Keeper :=
  match o with
  | .withFolder p => .ok (if p.length > 0 then { k with folder := p } else k)
  | .withName n =>
      .ok (if n.length > 0 then
        { k with name := sanitizeName n } else k)
  | .withExtension e =>
      let e := if e.length > 0 ∧ e.toList.head? ≠ some '.' then "." ++ e else e
      .ok { k with extension := e }
  | .withTimeLayout l => .ok { k with timeLayout := l }
  | .withMaxSize s => .ok { k with maxSize := s }
  | .withArchiveNameLayout l =>
      if l.length = 0 then .ok k
      else
        match parseLayout l with
        | none => .error (.wrap "failed to set archive name layout" .badTemplate)
        | some t => .ok { k with archiveNameLayout := t }
  | .withMaxFiles s => .ok { k with maxFiles := s }
  | .noCron => .ok k
  | .withGzipLevel lvl =>
      if lvl < -2 ∨ lvl > 9 then
        .error (.wrap "failed to create compress" .badGzipLevel)
      else
        .ok { k with
          compressorContructor := some (gzipModel lvl)
          compressionExt := ".gz" }
  | .noCompression =>
      .ok { k with compressorContructor := none, compressionExt := "" }
  | .withTotalSize s => .ok { k with totalSize := s }

/-- The option loop of `applyOpts`: the keeper is mutated in place, so a
failure keeps the mutations of every earlier option. -/
def applyLoop : Keeper → List Opt → Keeper × Option Err
  | k, [] => (k, none)
  | k, o :: os =>
    match applyOpt o k with
    | .error e => (k, some (Err.wrap "failed to apply option" e))
    | .ok k' => applyLoop k' os

/-- `applyOpts`: run the options, then (re)open the current file, reset
`currentFileSize` from a fresh stat, and rebuild the archive set by a
directory scan.  Returns the keeper as mutated so far even on failure. -/
def applyOpts (k : Keeper) (opts : List Opt) (fs : FS) (now : Nat) :
    Keeper × FS × Option Err :=
  match applyLoop k opts with
  | (k1, some e) => (k1, fs, some e)
  | (k1, none) =>
    let (fs1, h) := openAppend (currentFilePath k1) fs now
    let k2 := { k1 with currentFile := h }
    match fs1.lookup (currentFilePath k1) with
    | none => (k2, fs1, some .statFail)
    | some f =>
      let k3 := { k2 with currentFileSize := (f.content.length : Int) }
      match k3.getArchiveGlobPattern with
      | none => (k3, fs1, some (.wrap "failed to get archive pattern" .emptyPattern))
      | some pattern =>
        match getArchives pattern fs1 with
        | none => (k3, fs1, some .statFail)
        | some (l, total) =>
          ({ k3 with archives := l, archivesSize := total }, fs1, none)

/-! ## Registry (global.go) -/

/-- The process registry: logical name to shared instance.  Pointer
sharing is embedded by writing the mutated keeper back explicitly. -/
def Registry : Type := List (String × Keeper)

/-- Look a name up in the registry. -/
def regLookup (reg : Registry) (name : String) : Option Keeper :=
  match reg with
  | [] => none
  | (n, k) :: rest => if n = name then some k else regLookup rest name

/-- Store a keeper under a name, replacing any previous entry. -/
def regSet (reg : Registry) (name : String) (k : Keeper) : Registry :=
  (name, k) :: reg.filter (fun e => decide (e.1 ≠ name))

/-- `unregister(name)`. -/
def regRemove (reg : Registry) (name : String) : Registry :=
  reg.filter (fun e => decide (e.1 ≠ name))

/-- The zero `Keeper` allocated by `new(Keeper)`. -/
def zeroKeeper : Keeper :=
  { folder := "", name := "", extension := "", timeLayout := "",
    maxSize := 0, archiveNameLayout := [], maxFiles := 0,
    compressorContructor := none, compressionExt := "", totalSize := 0,
    currentFile := ⟨"", false⟩, currentFileSize := 0,
    archives := [], archivesSize := 0 }

/-- The default name; `os.Args` is environmental, so the bare default
stands in for the executable-derived one. -/
def defaultKeeperName : String := "lorekeeper"

/-- The default option list of `New` (`os.TempDir()` embedded as its
usual value). -/
def defaultOpts : List Opt :=
  [ .withFolder "/tmp",
    .withName defaultKeeperName,
    .withExtension ".log",
    .withTimeLayout "2006-01-02-15-04-05.000000000-0700",
    .withMaxSize (15 * Mb),
    .withArchiveNameLayout
      "\x7b\x7b .time \x7d\x7d-\x7b\x7b .name \x7d\x7d\x7b\x7b .extension \x7d\x7d",
    .withMaxFiles 0,
    .noCron,
    .noCompression,
    .withTotalSize 0 ]

/-- `New(opts...)`: build a candidate from the defaults plus the caller's
options; on success, register it, or — when the name is taken — reapply
the full option list to the existing shared instance and return it.  The
registry reflects in-place mutation of the shared instance even when the
second `applyOpts` fails. -/
def New (opts : List Opt) (reg : Registry) (fs : FS) (now : Nat) :
    Registry × FS × Except Err Keeper :=
  let finalOpts := defaultOpts ++ opts
  match applyOpts zeroKeeper finalOpts fs now with
  | (_, fs1, some e) =>
      (reg, fs1, .error (.wrap "failed to create new keeper" e))
  | (k1, fs1, none) =>
    match regLookup reg k1.name with
    | none => (regSet reg k1.name k1, fs1, .ok k1)
    | some old =>
      match applyOpts old finalOpts fs1 now with
      | (old', fs2, some e) =>
          (regSet reg k1.name old', fs2,
            .error (.wrap "failed to create new keeper" e))
      | (old', fs2, none) => (regSet reg k1.name old', fs2, .ok old')

/-! ## Rotation, write, close -/

/-- A keeper together with the filesystem it acts on. -/
structure State : Type where
  keeper : Keeper
  fs : FS

/-- The eviction loop of `rotate`: while either retention predicate is
violated, dequeue the oldest record and delete its file, re-evaluating
the predicates each iteration.  On an error the already-dequeued records
stay dequeued and the size is not decremented, as in the source. -/
def evictLoop (ts mf : Int) :
    List FileInfo → Int → FS → List FileInfo × Int × FS × Option Err
  | [], asize, fs =>
    if shouldDeleteOldestB ts mf asize ([] : List FileInfo).length then
      ([], asize, fs,
        some (Err.wrap "failed to get oldest archive" .dequeueEmpty))
    else ([], asize, fs, none)
  | oldest :: rest, asize, fs =>
    if shouldDeleteOldestB ts mf asize (oldest :: rest).length then
      match osRemove oldest.filePath fs with
      | .error e =>
          (rest, asize, fs,
            some (Err.wrap "failed to remove oldest archive" e))
      | .ok fs' => evictLoop ts mf rest (asize - oldest.size) fs'
    else (oldest :: rest, asize, fs, none)

/-- `rotate`: close the current file, move it to a freshly rendered
archive name, optionally compress, record the archive, evict, and open a
fresh current file with the size counter reset to zero. -/
def rotate (s : State) (timeStr : String) (now : Nat) : State × Option Err :=
  match fsClose s.keeper.currentFile with
  | .error e => (s, some (.wrap "failed to rotate log file" e))
  | .ok h' =>
    let k1 := { s.keeper with currentFile := h' }
    let archiveName := newArchiveName k1 timeStr
    match osRename (currentFilePath k1) archiveName s.fs with
    | .error e => (⟨k1, s.fs⟩, some (.wrap "failed to rotate log file" e))
    | .ok fs1 =>
      let step :=
        match k1.compressorContructor with
        | none => Except.ok (archiveName, fs1)
        | some f =>
          match fs1.lookup archiveName with
          | none => Except.error Err.compressFail
          | some file =>
            let compressedName := archiveName ++ k1.compressionExt
            let fs2 :=
              (fs1.setFile compressedName ⟨f file.content, now⟩).removeFile
                archiveName
            Except.ok (compressedName, fs2)
      match step with
      | .error e => (⟨k1, fs1⟩, some e)
      | .ok (finalName, fs2) =>
        match getFileInfo finalName fs2 with
        | none => (⟨k1, fs2⟩, some .statFail)
        | some info =>
          let k2 := { k1 with
            archivesSize := k1.archivesSize + info.size,
            archives := k1.archives ++ [info] }
          match evictLoop k2.totalSize k2.maxFiles k2.archives
              k2.archivesSize fs2 with
          | (archs, asize, fs3, some e) =>
              (⟨{ k2 with archives := archs, archivesSize := asize }, fs3⟩,
                some e)
          | (archs, asize, fs3, none) =>
            let (fs4, h4) := openAppend (currentFilePath k2) fs3 now
            let k3 := { k2 with
              archives := archs
              archivesSize := asize
              currentFile := h4
              currentFileSize := 0 }
            (⟨k3, fs4⟩, none)

/-- `Write(msg)`: rotate first when the incoming message would overflow,
then append and bump the size counter by the bytes written. -/
def Write (s : State) (msg : List Nat) (now : Nat) (timeStr : String) :
    State × Except Err Nat :=
  let rotated :=
    if s.keeper.shouldRotate msg then rotate s timeStr now else (s, none)
  match rotated with
  | (s1, some e) => (s1, .error e)
  | (s1, none) =>
    match fsWrite s1.keeper.currentFile msg now s1.fs with
    | .error e => (s1, .error e)
    | .ok (n, fs') =>
      (⟨{ s1.keeper with
            currentFileSize := s1.keeper.currentFileSize + (n : Int) },
          fs'⟩, .ok n)

/-- `Close()`: rotate, unregister, then free the (freshly opened)
current file. -/
def Close (s : State) (reg : Registry) (timeStr : String) (now : Nat) :
    State × Registry × Option Err :=
  match rotate s timeStr now with
  | (s1, some e) => (s1, reg, some (.wrap "failed to rotate file" e))
  | (s1, none) =>
    let reg' := regRemove reg s1.keeper.name
    match fsClose s1.keeper.currentFile with
    | .error e => (s1, reg', some e)
    | .ok h' => (⟨{ s1.keeper with currentFile := h' }, s1.fs⟩, reg', none)

/-- The error component of a construction result, for stating
observations decidably. -/
def errOf (r : Except Err Keeper) : Option Err :=
  match r with
  | .error e => some e
  | .ok _ => none

/-- A sequence of consecutive rotations with the supplied rotation
timestamps (string form and clock form). -/
def rotSeq (s : State) : List (String × Nat) → State × Option Err
  | [] => (s, none)
  | (t, n) :: rest =>
    match rotate s t n with
    | (s1, some e) => (s1, some e)
    | (s1, none) => rotSeq s1 rest

/-! ## Concrete fixtures for instantiating the theorems -/

/-- The usual archive layout `.time`, "-", `.name`, `.extension`. -/
def stdLayout : Template :=
  [Segment.timeVar, Segment.lit "-", Segment.nameVar, Segment.extVar]

/-- A degenerate layout without the time variable: it renders every
archive to the canonical current-file path. -/
def aliasLayout : Template := [Segment.nameVar, Segment.extVar]

/-- A small keeper in folder "f" with name "x", no compression, holding
an open handle on the canonical current file. -/
def mkKeeper (layout : Template) (maxSize maxFiles totalSize csize : Int) :
    Keeper :=
  { folder := "f", name := "x", extension := ".log", timeLayout := "",
    maxSize := maxSize, archiveNameLayout := layout, maxFiles := maxFiles,
    compressorContructor := none, compressionExt := "",
    totalSize := totalSize, currentFile := ⟨"f/x.log", true⟩,
    currentFileSize := csize, archives := [], archivesSize := 0 }

/-- A filesystem holding only the current file with the given bytes. -/
def fsOne (content : List Nat) : FS := [("f/x.log", ⟨content, 0⟩)]

/-! ## Helper lemmas -/

/-- Total size of a record list. -/
def sizesSum (l : List FileInfo) : Int := (l.map FileInfo.size).sum

@[simp] theorem FS.lookup_removeFile (fs : FS) (p q : String) :
    (fs.removeFile p).lookup q = if p = q then none else fs.lookup q := by
  induction fs with
  | nil => unfold FS.removeFile; by_cases h : p = q <;> simp [FS.lookup, h]
  | cons e rest ih =>
    by_cases he : e.1 = p
    · have : FS.removeFile (e :: rest) p = FS.removeFile rest p := by
        simp [FS.removeFile, List.filter, he]
      rw [this, ih]
      by_cases h : p = q
      · simp [h]
      · have heq : ¬ e.1 = q := fun hc => h (he.symm.trans hc)
        simp [h, FS.lookup, heq]
    · have : FS.removeFile (e :: rest) p = e :: FS.removeFile rest p := by
        simp [FS.removeFile, List.filter, he]
      rw [this]
      by_cases heq : e.1 = q
      · have h : ¬ p = q := fun hc => he (heq.trans hc.symm)
        simp [FS.lookup, heq, h]
      · simp [FS.lookup, heq, ih]

@[simp] theorem FS.lookup_setFile (fs : FS) (p q : String) (f : FsFile) :
    (fs.setFile p f).lookup q = if p = q then some f else fs.lookup q := by
  unfold FS.setFile
  by_cases h : p = q <;> simp [FS.lookup, h]

theorem shouldDeleteOldest_eq (k : Keeper) :
    k.shouldDeleteOldest =
      shouldDeleteOldestB k.totalSize k.maxFiles k.archivesSize
        k.archives.length := rfl

theorem foldl_add_sizes (l : List FileInfo) (a : Int) :
    l.foldl (fun acc i => acc + i.size) a = a + sizesSum l := by
  induction l generalizing a with
  | nil => simp [sizesSum]
  | cons x xs ih => simp [List.foldl, sizesSum, ih, List.sum_cons]; ring

theorem openAppend_snd (p : String) (fs : FS) (now : Nat) :
    (openAppend p fs now).2 = ⟨p, true⟩ := by
  unfold openAppend; split <;> rfl

theorem openAppend_lookup (p : String) (fs : FS) (now : Nat) :
    ∃ f, ((openAppend p fs now).1).lookup p = some f := by
  unfold openAppend
  cases h : fs.lookup p with
  | none => exact ⟨⟨[], now⟩, by simp⟩
  | some f => exact ⟨f, by simp [h]⟩

theorem evictLoop_exit (ts mf : Int) (archs : List FileInfo) :
    ∀ (asize : Int) (fs : FS) (a' : List FileInfo) (s' : Int) (f' : FS),
      evictLoop ts mf archs asize fs = (a', s', f', none) →
      shouldDeleteOldestB ts mf s' a'.length = false := by
  induction archs with
  | nil =>
    intro asize fs a' s' f' h
    unfold evictLoop at h
    split at h
    · simp at h
    · rename_i hc
      simp only [Prod.mk.injEq] at h
      obtain ⟨h1, h2, -⟩ := h
      rw [← h1, ← h2]
      exact Bool.not_eq_true _ ▸ hc
  | cons o rest ih =>
    intro asize fs a' s' f' h
    unfold evictLoop at h
    split at h
    · split at h
      · simp at h
      · exact ih _ _ _ _ _ h
    · rename_i hc
      simp only [Prod.mk.injEq] at h
      obtain ⟨h1, h2, -⟩ := h
      rw [← h1, ← h2]
      exact Bool.not_eq_true _ ▸ hc

theorem evictLoop_sum (ts mf : Int) (archs : List FileInfo) :
    ∀ (asize : Int) (fs : FS) (a' : List FileInfo) (s' : Int) (f' : FS),
      asize = sizesSum archs →
      evictLoop ts mf archs asize fs = (a', s', f', none) →
      s' = sizesSum a' := by
  induction archs with
  | nil =>
    intro asize fs a' s' f' hsum h
    unfold evictLoop at h
    split at h
    · simp at h
    · simp only [Prod.mk.injEq] at h
      obtain ⟨h1, h2, -⟩ := h
      rw [← h1, ← h2, hsum]
  | cons o rest ih =>
    intro asize fs a' s' f' hsum h
    unfold evictLoop at h
    split at h
    · split at h
      · simp at h
      · refine ih _ _ _ _ _ ?_ h
        rw [hsum]
        simp [sizesSum]
    · simp only [Prod.mk.injEq] at h
      obtain ⟨h1, h2, -⟩ := h
      rw [← h1, ← h2, hsum]

theorem evictLoop_lookup (ts mf : Int) (p : String) (archs : List FileInfo) :
    ∀ (asize : Int) (fs : FS) (a' : List FileInfo) (s' : Int) (f' : FS)
      (e : Option Err),
      (∀ a ∈ archs, a.filePath ≠ p) →
      evictLoop ts mf archs asize fs = (a', s', f', e) →
      f'.lookup p = fs.lookup p := by
  induction archs with
  | nil =>
    intro asize fs a' s' f' e _ h
    unfold evictLoop at h
    split at h <;>
      · simp only [Prod.mk.injEq] at h
        obtain ⟨-, -, h3, -⟩ := h
        rw [← h3]
  | cons o rest ih =>
    intro asize fs a' s' f' e hne h
    unfold evictLoop at h
    split at h
    · cases hrem : osRemove o.filePath fs with
      | error err =>
        rw [hrem] at h
        simp only [Prod.mk.injEq] at h
        obtain ⟨-, -, h3, -⟩ := h
        rw [← h3]
      | ok fs2 =>
        rw [hrem] at h
        have hstep : fs2.lookup p = fs.lookup p := by
          unfold osRemove at hrem
          split at hrem
          · exact absurd hrem (by simp)
          · simp only [Except.ok.injEq] at hrem
            rw [← hrem]
            have : o.filePath ≠ p := hne o (by simp)
            simp [FS.lookup_removeFile, this]
        rw [← hstep]
        exact ih _ _ _ _ _ _ (fun a ha => hne a (by simp [ha])) h
    · simp only [Prod.mk.injEq] at h
      obtain ⟨-, -, h3, -⟩ := h
      rw [← h3]

/-- On every successful rotation the size counter is reset to zero, the
current file is a freshly opened handle at the canonical path, and the
configuration fields survive untouched. -/
theorem rotate_ok_spec (s : State) (t : String) (n : Nat) (s' : State)
    (h : rotate s t n = (s', none)) :
    s'.keeper.currentFileSize = 0 ∧
    s'.keeper.currentFile = ⟨currentFilePath s.keeper, true⟩ ∧
    s'.keeper.folder = s.keeper.folder ∧
    s'.keeper.name = s.keeper.name ∧
    s'.keeper.extension = s.keeper.extension ∧
    s'.keeper.maxSize = s.keeper.maxSize ∧
    s'.keeper.maxFiles = s.keeper.maxFiles ∧
    s'.keeper.totalSize = s.keeper.totalSize ∧
    s'.keeper.archiveNameLayout = s.keeper.archiveNameLayout ∧
    s'.keeper.compressorContructor = s.keeper.compressorContructor := by
  unfold rotate at h
  split at h
  · simp at h
  · rename_i h' hclose
    dsimp only at h
    split at h
    · simp at h
    · rename_i fs1 hren
      split at h
      · simp at h
      · rename_i pr hstep
        split at h
        · simp at h
        · rename_i info hinfo
          split at h
          · simp at h
          · rename_i archs asize fs3 hevict
            simp only [Prod.mk.injEq] at h
            obtain ⟨hs, -⟩ := h
            rw [← hs]
            refine ⟨rfl, ?_, rfl, rfl, rfl, rfl, rfl, rfl, rfl, rfl⟩
            rw [openAppend_snd]
            rfl

/-- A successful rotation ran the eviction loop to completion on the
archive list extended with the new record, and the post-state's archive
list and size total are exactly the loop's results. -/
theorem rotate_ok_evict (s : State) (t : String) (n : Nat) (s' : State)
    (h : rotate s t n = (s', none)) :
    ∃ (info : FileInfo) (fsMid fsOut : FS),
      evictLoop s.keeper.totalSize s.keeper.maxFiles
        (s.keeper.archives ++ [info]) (s.keeper.archivesSize + info.size)
        fsMid = (s'.keeper.archives, s'.keeper.archivesSize, fsOut, none) := by
  unfold rotate at h
  split at h
  · simp at h
  · rename_i h' hclose
    dsimp only at h
    split at h
    · simp at h
    · rename_i fs1 hren
      split at h
      · simp at h
      · rename_i pr hstep
        split at h
        · simp at h
        · rename_i info hinfo
          split at h
          · simp at h
          · rename_i archs asize fs3 hevict
            simp only [Prod.mk.injEq] at h
            obtain ⟨hs, -⟩ := h
            refine ⟨info, pr, fs3, ?_⟩
            rw [← hs]
            exact hevict

theorem getArchivesFrom_sum (ps : List String) (fs : FS)
    (l : List FileInfo) (t : Int)
    (h : getArchivesFrom ps fs = some (l, t)) : t = sizesSum l := by
  unfold getArchivesFrom at h
  split at h
  · simp at h
  · rename_i infos hinfos
    simp only [Option.some.injEq, Prod.mk.injEq] at h
    obtain ⟨hl, ht⟩ := h
    rw [← ht, ← hl, foldl_add_sizes]
    simp

/-- C5: the eviction step of every rotation pops and deletes the oldest
archive while either retention predicate is violated, re-evaluating both
each iteration, so after a successful rotation neither predicate holds;
in particular with size retention enabled the tracked total of remaining
archive bytes is at most `totalSize` (maxTotalArchiveBytes). -/
theorem rotation_enforces_retention_bounds (s : State) (t : String)
    (n : Nat) (s' : State) (h : rotate s t n = (s', none)) :
    s'.keeper.shouldDeleteOldest = false ∧
    (0 < s'.keeper.totalSize →
      s'.keeper.archivesSize ≤ s'.keeper.totalSize) := by
  obtain ⟨info, fsMid, fsOut, hev⟩ := rotate_ok_evict s t n s' h
  obtain ⟨-, -, -, -, -, -, hmf, hts, -⟩ := rotate_ok_spec s t n s' h
  have hexit := evictLoop_exit _ _ _ _ _ _ _ _ hev
  constructor
  · unfold Keeper.shouldDeleteOldest
    rw [hts, hmf]
    exact hexit
  · intro hpos
    rw [hts] at hpos
    simp only [shouldDeleteOldestB, Bool.or_eq_false_iff,
      Bool.and_eq_false_iff, decide_eq_false_iff_not, not_lt] at hexit
    obtain ⟨h1, -⟩ := hexit
    rcases h1 with h1 | h1
    · exact absurd hpos (not_lt.mpr h1)
    · rw [hts]; exact h1

/-- C5 witness: a concrete successful rotation where size retention is
enabled and neither retention predicate holds afterwards. -/
theorem rotation_enforces_retention_bounds_witness :
    (rotate ⟨mkKeeper stdLayout 10 0 4 3, fsOne [7, 7, 7]⟩
        "T1" 5).1.keeper.shouldDeleteOldest = false := by
  have h2 : (rotate ⟨mkKeeper stdLayout 10 0 4 3, fsOne [7, 7, 7]⟩
      "T1" 5).2 = none := by decide
  have h := (Prod.mk.eta
    (p := rotate ⟨mkKeeper stdLayout 10 0 4 3, fsOne [7, 7, 7]⟩
      "T1" 5)).symm
  rw [h2] at h
  exact (rotation_enforces_retention_bounds _ "T1" 5 _ h).1

theorem fsWrite_ok_len (h : Handle) (msg : List Nat) (now : Nat) (fs : FS)
    (n : Nat) (fs' : FS) (hw : fsWrite h msg now fs = .ok (n, fs')) :
    n = msg.length := by
  unfold fsWrite at hw
  split at hw
  · split at hw <;>
      · simp only [Except.ok.injEq, Prod.mk.injEq] at hw
        exact hw.1.symm
  · simp at hw

/-- C10: the running total `archivesSize` always equals the sum of the
sizes of the records in `archives`: construction (`applyOpts`)
initializes both from the same scan, every successful rotation adds the
new record's size when appending it, and every eviction iteration
subtracts the removed record's size; `Write` preserves the invariant. -/
theorem archive_size_accounting :
    (∀ (k : Keeper) (opts : List Opt) (fs : FS) (now : Nat)
        (k' : Keeper) (fs' : FS),
        applyOpts k opts fs now = (k', fs', none) →
        k'.archivesSize = sizesSum k'.archives) ∧
    (∀ (s : State) (t : String) (n : Nat) (s' : State),
        rotate s t n = (s', none) →
        s.keeper.archivesSize = sizesSum s.keeper.archives →
        s'.keeper.archivesSize = sizesSum s'.keeper.archives) ∧
    (∀ (s : State) (msg : List Nat) (now : Nat) (t : String)
        (s' : State) (r : Nat),
        Write s msg now t = (s', Except.ok r) →
        s.keeper.archivesSize = sizesSum s.keeper.archives →
        s'.keeper.archivesSize = sizesSum s'.keeper.archives) := by
  have hrotate : ∀ (s : State) (t : String) (n : Nat) (s' : State),
      rotate s t n = (s', none) →
      s.keeper.archivesSize = sizesSum s.keeper.archives →
      s'.keeper.archivesSize = sizesSum s'.keeper.archives := by
    intro s t n s' h hinv
    obtain ⟨info, fsMid, fsOut, hev⟩ := rotate_ok_evict s t n s' h
    have hpre : s.keeper.archivesSize + info.size =
        sizesSum (s.keeper.archives ++ [info]) := by
      rw [hinv]; simp [sizesSum]
    exact evictLoop_sum _ _ _ _ _ _ _ _ hpre hev
  refine ⟨?_, hrotate, ?_⟩
  · intro k opts fs now k' fs' h
    unfold applyOpts at h
    split at h
    · simp at h
    · rename_i k1 hloop
      dsimp only at h
      split at h
      · simp at h
      · rename_i f hstat
        split at h
        · simp at h
        · rename_i pattern hpat
          split at h
          · simp at h
          · rename_i pr l total hscan
            simp only [Prod.mk.injEq] at h
            obtain ⟨hk, -, -⟩ := h
            rw [← hk]
            exact getArchivesFrom_sum _ _ _ _ hscan
  · intro s msg now t s' r h hinv
    unfold Write at h
    dsimp only at h
    by_cases hrot : s.keeper.shouldRotate msg = true
    · rw [if_pos hrot] at h
      cases hr : rotate s t now with
      | mk s1 e =>
        rw [hr] at h
        cases e with
        | some err => simp at h
        | none =>
          dsimp only at h
          cases hw : fsWrite s1.keeper.currentFile msg now s1.fs with
          | error e2 => rw [hw] at h; simp at h
          | ok p =>
            obtain ⟨n2, fs2⟩ := p
            rw [hw] at h
            simp only [Prod.mk.injEq] at h
            obtain ⟨hs, -⟩ := h
            rw [← hs]
            exact hrotate s t now s1 hr hinv
    · rw [if_neg hrot] at h
      dsimp only at h
      cases hw : fsWrite s.keeper.currentFile msg now s.fs with
      | error e2 => rw [hw] at h; simp at h
      | ok p =>
        obtain ⟨n2, fs2⟩ := p
        rw [hw] at h
        simp only [Prod.mk.injEq] at h
        obtain ⟨hs, -⟩ := h
        rw [← hs]
        exact hinv

/-- C10 witness: the rotation conjunct applied to a concrete successful
rotation starting from a consistent state. -/
theorem archive_size_accounting_witness :
    (rotate ⟨mkKeeper stdLayout 10 0 0 3, fsOne [7, 7, 7]⟩
        "T1" 5).1.keeper.archivesSize =
      sizesSum (rotate ⟨mkKeeper stdLayout 10 0 0 3, fsOne [7, 7, 7]⟩
        "T1" 5).1.keeper.archives := by
  have h2 : (rotate ⟨mkKeeper stdLayout 10 0 0 3, fsOne [7, 7, 7]⟩
      "T1" 5).2 = none := by decide
  have h := (Prod.mk.eta
    (p := rotate ⟨mkKeeper stdLayout 10 0 0 3, fsOne [7, 7, 7]⟩
      "T1" 5)).symm
  rw [h2] at h
  exact archive_size_accounting.2.1 _ "T1" 5 _ h (by decide)

/-- C2 counterexample: with limit 10 and a current size of 5, a single
successful `Write` of an 11-byte message rotates first and then appends
the whole message, leaving the bytes accumulated in the (fresh) current
file at 11 > 10 — the claimed at-most-L bound fails for messages longer
than the limit. -/
theorem write_oversized_message_exceeds_limit :
    (Write ⟨mkKeeper stdLayout 10 0 0 5, fsOne [7, 7, 7, 7, 7]⟩
        (List.replicate 11 1) 1 "T1").2 = Except.ok 11 ∧
    (Write ⟨mkKeeper stdLayout 10 0 0 5, fsOne [7, 7, 7, 7, 7]⟩
        (List.replicate 11 1) 1 "T1").1.keeper.maxSize = 10 ∧
    (Write ⟨mkKeeper stdLayout 10 0 0 5, fsOne [7, 7, 7, 7, 7]⟩
        (List.replicate 11 1) 1 "T1").1.keeper.currentFileSize = 11 ∧
    ((Write ⟨mkKeeper stdLayout 10 0 0 5, fsOne [7, 7, 7, 7, 7]⟩
        (List.replicate 11 1) 1 "T1").1.fs.lookup "f/x.log") =
      some ⟨List.replicate 11 1, 1⟩ := by decide

/-- C2 (amended): for a keeper with size rotation enabled at limit
`maxSize = L > 0`, immediately after any successful `Write` of a message
no longer than L, the size counter of the current file is at most L.
(The unamended claim fails for a single message longer than L, which is
written whole into the fresh file after rotating.) -/
theorem write_keeps_counter_within_limit (s : State) (msg : List Nat)
    (now : Nat) (t : String) (s' : State) (n : Nat)
    (hmax : 0 < s.keeper.maxSize)
    (hlen : (msg.length : Int) ≤ s.keeper.maxSize)
    (h : Write s msg now t = (s', Except.ok n)) :
    s'.keeper.currentFileSize ≤ s.keeper.maxSize ∧
    s'.keeper.maxSize = s.keeper.maxSize := by
  unfold Write at h
  dsimp only at h
  by_cases hrot : s.keeper.shouldRotate msg = true
  · rw [if_pos hrot] at h
    cases hr : rotate s t now with
    | mk s1 e =>
      rw [hr] at h
      cases e with
      | some err => simp at h
      | none =>
        dsimp only at h
        cases hw : fsWrite s1.keeper.currentFile msg now s1.fs with
        | error e2 => rw [hw] at h; simp at h
        | ok p =>
          obtain ⟨n2, fs2⟩ := p
          rw [hw] at h
          simp only [Prod.mk.injEq] at h
          obtain ⟨hs, -⟩ := h
          have hn2 := fsWrite_ok_len _ _ _ _ _ _ hw
          have hsz := (rotate_ok_spec s t now s1 hr).1
          have hms := (rotate_ok_spec s t now s1 hr).2.2.2.2.2.1
          rw [← hs]
          constructor
          · show s1.keeper.currentFileSize + (n2 : Int) ≤ s.keeper.maxSize
            rw [hsz, hn2]
            omega
          · show s1.keeper.maxSize = s.keeper.maxSize
            exact hms
  · rw [if_neg hrot] at h
    dsimp only at h
    cases hw : fsWrite s.keeper.currentFile msg now s.fs with
    | error e2 => rw [hw] at h; simp at h
    | ok p =>
      obtain ⟨n2, fs2⟩ := p
      rw [hw] at h
      simp only [Prod.mk.injEq] at h
      obtain ⟨hs, -⟩ := h
      have hn2 := fsWrite_ok_len _ _ _ _ _ _ hw
      simp only [Keeper.shouldRotate, Bool.and_eq_true, decide_eq_true_eq,
        not_and, not_lt, gt_iff_lt] at hrot
      have hle := hrot hmax
      rw [← hs]
      refine ⟨?_, rfl⟩
      show s.keeper.currentFileSize + (n2 : Int) ≤ s.keeper.maxSize
      rw [hn2]
      omega

/-- C2 amended witness: the exact spec scenario — limit 10, size 5, a
5-byte write fills the file to exactly 10 without rotating. -/
theorem write_keeps_counter_within_limit_witness :
    (Write ⟨mkKeeper stdLayout 10 0 0 5, fsOne [7, 7, 7, 7, 7]⟩
        (List.replicate 5 1) 1 "T1").1.keeper.currentFileSize ≤ 10 := by
  have h2 : (Write ⟨mkKeeper stdLayout 10 0 0 5, fsOne [7, 7, 7, 7, 7]⟩
      (List.replicate 5 1) 1 "T1").2 = Except.ok 5 := by decide
  have h := (Prod.mk.eta
    (p := Write ⟨mkKeeper stdLayout 10 0 0 5, fsOne [7, 7, 7, 7, 7]⟩
      (List.replicate 5 1) 1 "T1")).symm
  rw [h2] at h
  exact (write_keeps_counter_within_limit _ _ 1 "T1" _ 5
    (by decide) (by decide) h).1

/-- C3 counterexample: with the layout `.name` `.extension` (no time
variable) the archive name coincides with the canonical path, so the
"fresh" current file reopened by a successful rotation already holds the
five old bytes — yet the counter is reset to 0, not to the file's true
length 5: rotation does not stat the reopened file. -/
theorem rotate_counter_not_statted :
    (rotate ⟨mkKeeper aliasLayout 10 0 0 5, fsOne [1, 2, 3, 4, 5]⟩
        "T1" 3).2 = none ∧
    (rotate ⟨mkKeeper aliasLayout 10 0 0 5, fsOne [1, 2, 3, 4, 5]⟩
        "T1" 3).1.keeper.currentFileSize = 0 ∧
    ((rotate ⟨mkKeeper aliasLayout 10 0 0 5, fsOne [1, 2, 3, 4, 5]⟩
        "T1" 3).1.fs.lookup "f/x.log") = some ⟨[1, 2, 3, 4, 5], 0⟩ ∧
    (rotate ⟨mkKeeper aliasLayout 10 0 0 5, fsOne [1, 2, 3, 4, 5]⟩
        "T1" 3).1.keeper.currentFileSize ≠ (5 : Int) := by decide

/-- C3 (amended): every successful rotation ends by opening a fresh
current file at the canonical path and resetting the size counter to
zero unconditionally; the stat-based re-initialization of the counter
(so that it equals the true length of a pre-existing file at the
canonical path) happens only in `applyOpts`, i.e. at construction and
reconfiguration, not at rotation. -/
theorem rotation_resets_counter_applyOpts_stats :
    (∀ (s : State) (t : String) (n : Nat) (s' : State),
        rotate s t n = (s', none) →
        s'.keeper.currentFileSize = 0 ∧
        s'.keeper.currentFile = ⟨currentFilePath s.keeper, true⟩) ∧
    (∀ (k : Keeper) (opts : List Opt) (fs : FS) (now : Nat)
        (k' : Keeper) (fs' : FS),
        applyOpts k opts fs now = (k', fs', none) →
        ∃ f, fs'.lookup (currentFilePath k') = some f ∧
          k'.currentFileSize = (f.content.length : Int)) := by
  constructor
  · intro s t n s' h
    exact ⟨(rotate_ok_spec s t n s' h).1, (rotate_ok_spec s t n s' h).2.1⟩
  · intro k opts fs now k' fs' h
    unfold applyOpts at h
    split at h
    · simp at h
    · rename_i k1 hloop
      dsimp only at h
      split at h
      · simp at h
      · rename_i f hstat
        split at h
        · simp at h
        · rename_i pattern hpat
          split at h
          · simp at h
          · rename_i pr l total hscan
            simp only [Prod.mk.injEq] at h
            obtain ⟨hk, hf, -⟩ := h
            refine ⟨f, ?_, ?_⟩
            · rw [← hk, ← hf]
              exact hstat
            · rw [← hk]

/-- C3 amended witness: construction over an empty filesystem with the
default options stats the freshly created empty current file. -/
theorem rotation_resets_counter_applyOpts_stats_witness :
    ∃ f, ((applyOpts zeroKeeper defaultOpts [] 0).2.1).lookup
        (currentFilePath (applyOpts zeroKeeper defaultOpts [] 0).1) =
          some f ∧
      (applyOpts zeroKeeper defaultOpts [] 0).1.currentFileSize =
        (f.content.length : Int) := by
  have h2 : (applyOpts zeroKeeper defaultOpts [] 0).2.2 = none := by decide
  have h := (Prod.mk.eta
    (p := applyOpts zeroKeeper defaultOpts [] 0)).symm
  have h2' := (Prod.mk.eta
    (p := (applyOpts zeroKeeper defaultOpts [] 0).2)).symm
  rw [h2] at h2'
  rw [h2'] at h
  exact rotation_resets_counter_applyOpts_stats.2 zeroKeeper defaultOpts
    [] 0 _ _ h

theorem getFileInfo_path (p : String) (fs : FS) (i : FileInfo)
    (h : getFileInfo p fs = some i) : i.filePath = p := by
  unfold getFileInfo at h
  split at h
  · simp at h
  · simp only [Option.some.injEq] at h
    rw [← h]

/-- After a successful rotation without compression, when the rendered
archive name differs from the canonical path and no tracked archive sits
at the canonical path, the canonical path holds a freshly created empty
file. -/
theorem rotate_ok_fresh (s : State) (t : String) (n : Nat) (s' : State)
    (h : rotate s t n = (s', none))
    (hcomp : s.keeper.compressorContructor = none)
    (hnm : newArchiveName s.keeper t ≠ currentFilePath s.keeper)
    (harch : ∀ a ∈ s.keeper.archives,
      a.filePath ≠ currentFilePath s.keeper) :
    s'.fs.lookup (currentFilePath s.keeper) = some ⟨[], n⟩ := by
  unfold rotate at h
  split at h
  · simp at h
  · rename_i h' hclose
    dsimp only at h
    rw [hcomp] at h
    dsimp only at h
    split at h
    · simp at h
    · rename_i fs1 hren
      split at h
      · simp at h
      · rename_i info hinfo
        split at h
        · simp at h
        · rename_i archs asize fs3 hevict
          simp only [Prod.mk.injEq] at h
          obtain ⟨hs, -⟩ := h
          have hcp : fs1.lookup (currentFilePath s.keeper) = none := by
            unfold osRename at hren
            split at hren
            · exact absurd hren (by simp)
            · rename_i f0 heq0
              simp only [Except.ok.injEq] at hren
              rw [← hren]
              simp only [FS.lookup_setFile, FS.lookup_removeFile]
              show (if newArchiveName s.keeper t = currentFilePath s.keeper
                  then some f0
                  else if currentFilePath s.keeper = currentFilePath s.keeper
                    then none
                    else s.fs.lookup (currentFilePath s.keeper)) = none
              rw [if_neg hnm, if_pos rfl]
          have hipath := getFileInfo_path _ _ _ hinfo
          have hfs3 : fs3.lookup (currentFilePath s.keeper) = none := by
            have := evictLoop_lookup _ _ (currentFilePath s.keeper)
              (s.keeper.archives ++ [info]) _ _ _ _ _ _ ?_ hevict
            · rw [this, hcp]
            · intro a ha
              rcases List.mem_append.mp ha with ha | ha
              · exact harch a ha
              · have : a = info := by simpa using ha
                rw [this, hipath]
                exact hnm
          rw [← hs]
          show ((openAppend (currentFilePath s.keeper) fs3 n).1).lookup
            (currentFilePath s.keeper) = some ⟨[], n⟩
          unfold openAppend
          rw [hfs3]
          simp

/-- C1: `Write(msg)` triggers a rotation before appending iff
`maxSize > 0` and `currentFileSize + len(msg) > maxSize` (strict): when
the condition fails — in particular for a write that fills the file
exactly to the limit — the bytes are appended to the existing current
file and no archive record is added; when it holds, the current file is
archived first and the message's bytes land alone in a fresh file. -/
theorem write_rotates_iff_would_exceed (s : State) (msg : List Nat)
    (now : Nat) (t : String) (s' : State) (n : Nat) (f : FsFile)
    (hfile : s.keeper.currentFile = ⟨currentFilePath s.keeper, true⟩)
    (hlook : s.fs.lookup (currentFilePath s.keeper) = some f)
    (hcomp : s.keeper.compressorContructor = none)
    (hnm : newArchiveName s.keeper t ≠ currentFilePath s.keeper)
    (harch : ∀ a ∈ s.keeper.archives,
      a.filePath ≠ currentFilePath s.keeper)
    (h : Write s msg now t = (s', Except.ok n)) :
    ((0 < s.keeper.maxSize ∧
        s.keeper.maxSize < s.keeper.currentFileSize + (msg.length : Int)) →
      s'.fs.lookup (currentFilePath s.keeper) = some ⟨msg, now⟩ ∧
      s'.keeper.currentFileSize = (msg.length : Int)) ∧
    (¬ (0 < s.keeper.maxSize ∧
        s.keeper.maxSize < s.keeper.currentFileSize + (msg.length : Int)) →
      s'.fs.lookup (currentFilePath s.keeper) =
        some ⟨f.content ++ msg, now⟩ ∧
      s'.keeper.currentFileSize =
        s.keeper.currentFileSize + (msg.length : Int) ∧
      s'.keeper.archives = s.keeper.archives) := by
  have hcond : s.keeper.shouldRotate msg = true ↔
      (0 < s.keeper.maxSize ∧
        s.keeper.maxSize < s.keeper.currentFileSize + (msg.length : Int)) := by
    simp [Keeper.shouldRotate]
  unfold Write at h
  dsimp only at h
  by_cases hrot : s.keeper.shouldRotate msg = true
  · rw [if_pos hrot] at h
    cases hr : rotate s t now with
    | mk s1 e =>
      rw [hr] at h
      cases e with
      | some err => simp at h
      | none =>
        dsimp only at h
        have hfresh := rotate_ok_fresh s t now s1 hr hcomp hnm harch
        have hcf := (rotate_ok_spec s t now s1 hr).2.1
        have hsz := (rotate_ok_spec s t now s1 hr).1
        have hw : fsWrite s1.keeper.currentFile msg now s1.fs =
            .ok (msg.length,
              s1.fs.setFile (currentFilePath s.keeper) ⟨msg, now⟩) := by
          rw [hcf]
          unfold fsWrite
          simp only [if_pos rfl]
          rw [hfresh]
          simp
        rw [hw] at h
        simp only [Prod.mk.injEq] at h
        obtain ⟨hs, -⟩ := h
        constructor
        · intro _
          rw [← hs]
          refine ⟨by simp, ?_⟩
          show s1.keeper.currentFileSize + (msg.length : Int) =
            (msg.length : Int)
          rw [hsz]; ring
        · intro hc
          exact absurd (hcond.mp hrot) hc
  · rw [if_neg hrot] at h
    dsimp only at h
    have hw : fsWrite s.keeper.currentFile msg now s.fs =
        .ok (msg.length,
          s.fs.setFile (currentFilePath s.keeper)
            ⟨f.content ++ msg, now⟩) := by
      rw [hfile]
      unfold fsWrite
      rw [hlook]
      simp
    rw [hw] at h
    simp only [Prod.mk.injEq] at h
    obtain ⟨hs, -⟩ := h
    constructor
    · intro hc
      exact absurd (hcond.mpr hc) hrot
    · intro _
      rw [← hs]
      exact ⟨by simp, rfl, rfl⟩

/-- C1 witness: the spec's scenario tail — limit 10, file exactly full
at 10 bytes, a 1-byte write rotates first and lands alone in a fresh
current file. -/
theorem write_rotates_iff_would_exceed_witness :
    (Write ⟨mkKeeper stdLayout 10 0 0 10, fsOne (List.replicate 10 7)⟩
        [9] 7 "T1").1.fs.lookup "f/x.log" = some ⟨[9], 7⟩ ∧
    (Write ⟨mkKeeper stdLayout 10 0 0 10, fsOne (List.replicate 10 7)⟩
        [9] 7 "T1").1.keeper.currentFileSize = 1 := by
  have h2 : (Write ⟨mkKeeper stdLayout 10 0 0 10,
      fsOne (List.replicate 10 7)⟩ [9] 7 "T1").2 = Except.ok 1 := by decide
  have h := (Prod.mk.eta
    (p := Write ⟨mkKeeper stdLayout 10 0 0 10,
      fsOne (List.replicate 10 7)⟩ [9] 7 "T1")).symm
  rw [h2] at h
  have hmain := write_rotates_iff_would_exceed _ [9] 7 "T1" _ 1
    ⟨List.replicate 10 7, 0⟩ rfl (by decide) rfl (by decide)
    (by intro a ha; simp [mkKeeper] at ha) h
  exact hmain.1 (by decide)

theorem mapM_getFileInfo_paths (fs : FS) :
    ∀ (ps : List String) (infos : List FileInfo),
      ps.mapM (fun m => getFileInfo m fs) = some infos →
      infos.map FileInfo.filePath = ps := by
  intro ps
  induction ps with
  | nil =>
    intro infos h
    simp only [List.mapM_nil, Option.pure_def, Option.some.injEq] at h
    rw [← h]
    rfl
  | cons p rest ih =>
    intro infos h
    rw [List.mapM_cons] at h
    cases hi : getFileInfo p fs with
    | none => rw [hi] at h; simp at h
    | some i =>
      rw [hi] at h
      cases hr : rest.mapM (fun m => getFileInfo m fs) with
      | none => rw [hr] at h; simp at h
      | some is =>
        rw [hr] at h
        simp only [Option.pure_def, Option.bind_eq_bind,
          Option.some_bind, Option.some.injEq] at h
        rw [← h]
        simp only [List.map_cons]
        rw [ih is hr, getFileInfo_path p fs i hi]

theorem mapM_getFileInfo_none (fs : FS) :
    ∀ (ps : List String), (∃ p ∈ ps, fs.lookup p = none) →
      ps.mapM (fun m => getFileInfo m fs) = none := by
  intro ps
  induction ps with
  | nil => intro h; simp at h
  | cons p rest ih =>
    intro h
    rw [List.mapM_cons]
    obtain ⟨q, hq, hnone⟩ := h
    rcases List.mem_cons.mp hq with hq | hq
    · have hlp : fs.lookup p = none := by rw [← hq]; exact hnone
      have : getFileInfo p fs = none := by
        unfold getFileInfo
        rw [hlp]
      rw [this]
      rfl
    · cases hi : getFileInfo p fs with
      | none => rfl
      | some i =>
        rw [ih ⟨q, hq, hnone⟩]
        rfl

/-- C9: a successful directory scan returns the matching archive
records ordered oldest-first (nondecreasing modification time, via the
min-structure keyed by modification time), with a total equal to the
sum of the returned records' sizes; and if any stat fails (a matched
path with nothing behind it) the scan returns an error and no partial
list. -/
theorem getArchives_scan_spec :
    (∀ (pattern : String) (fs : FS) (l : List FileInfo) (t : Int),
        getArchives pattern fs = some (l, t) →
        l.Sorted fiLe ∧ t = sizesSum l ∧
        (l.map FileInfo.filePath).Perm (globMatches pattern fs)) ∧
    (∀ (ps : List String) (fs : FS),
        (∃ p ∈ ps, fs.lookup p = none) →
        getArchivesFrom ps fs = none) := by
  constructor
  · intro pattern fs l t h
    unfold getArchives getArchivesFrom at h
    split at h
    · simp at h
    · rename_i infos hinfos
      simp only [Option.some.injEq, Prod.mk.injEq] at h
      obtain ⟨hl, ht⟩ := h
      refine ⟨?_, ?_, ?_⟩
      · rw [← hl]
        exact List.sorted_insertionSort fiLe infos
      · rw [← ht, ← hl, foldl_add_sizes]
        simp
      · rw [← hl, ← mapM_getFileInfo_paths fs _ _ hinfos]
        exact List.Perm.map _ (List.perm_insertionSort fiLe infos)
  · intro ps fs h
    unfold getArchivesFrom
    rw [mapM_getFileInfo_none fs ps h]

/-- C9 witness: a concrete scan over two archives and one non-matching
current file, instantiating the success conjunct. -/
theorem getArchives_scan_spec_witness :
    ([(⟨"f/1-x.log", 1, 3⟩ : FileInfo), ⟨"f/2-x.log", 2, 5⟩].Sorted fiLe) ∧
    (3 : Int) = sizesSum [⟨"f/1-x.log", 1, 3⟩, ⟨"f/2-x.log", 2, 5⟩] ∧
    (([(⟨"f/1-x.log", 1, 3⟩ : FileInfo),
        ⟨"f/2-x.log", 2, 5⟩].map FileInfo.filePath).Perm
      (globMatches "f/*-x.log*"
        [("f/2-x.log", ⟨[1, 2], 5⟩), ("f/1-x.log", ⟨[1], 3⟩),
         ("f/x.log", ⟨[], 0⟩)])) :=
  getArchives_scan_spec.1 "f/*-x.log*"
    [("f/2-x.log", ⟨[1, 2], 5⟩), ("f/1-x.log", ⟨[1], 3⟩),
     ("f/x.log", ⟨[], 0⟩)]
    [⟨"f/1-x.log", 1, 3⟩, ⟨"f/2-x.log", 2, 5⟩] 3 (by decide)

theorem globMatchF_mono : ∀ (fuel fuel' : Nat) (p s : List Char),
    fuel ≤ fuel' → globMatchF fuel p s = true →
    globMatchF fuel' p s = true := by
  intro fuel
  induction fuel with
  | zero => intro fuel' p s _ h; simp [globMatchF] at h
  | succ m ih =>
    intro fuel' p s hle h
    cases fuel' with
    | zero => omega
    | succ m' =>
      have hm : m ≤ m' := by omega
      cases p with
      | nil => exact h
      | cons c p' =>
        unfold globMatchF at h ⊢
        by_cases hc : c = '*'
        · rw [if_pos hc] at h ⊢
          rcases Bool.or_eq_true_iff.mp h with h1 | h1
          · exact Bool.or_eq_true_iff.mpr (Or.inl (ih m' p' s hm h1))
          · refine Bool.or_eq_true_iff.mpr (Or.inr ?_)
            cases s with
            | nil => simp at h1
            | cons c' s' =>
              rcases Bool.and_eq_true_iff.mp h1 with ⟨h2, h3⟩
              exact Bool.and_eq_true_iff.mpr ⟨h2, ih m' (c :: p') s' hm h3⟩
        · rw [if_neg hc] at h ⊢
          cases s with
          | nil => simp at h
          | cons c' s' =>
            rcases Bool.and_eq_true_iff.mp h with ⟨h2, h3⟩
            exact Bool.and_eq_true_iff.mpr ⟨h2, ih m' p' s' hm h3⟩

theorem globMatchF_bound : ∀ (fuel : Nat) (p s : List Char),
    globMatchF fuel p s = true →
    globMatchF (p.length + s.length + 1) p s = true := by
  intro fuel
  induction fuel with
  | zero => intro p s h; simp [globMatchF] at h
  | succ m ih =>
    intro p s h
    cases p with
    | nil =>
      unfold globMatchF at h ⊢
      exact h
    | cons c p' =>
      unfold globMatchF at h ⊢
      by_cases hc : c = '*'
      · rw [if_pos hc] at h ⊢
        rcases Bool.or_eq_true_iff.mp h with h1 | h1
        · refine Bool.or_eq_true_iff.mpr (Or.inl ?_)
          exact globMatchF_mono _ _ _ _ (by simp; omega) (ih p' s h1)
        · refine Bool.or_eq_true_iff.mpr (Or.inr ?_)
          cases s with
          | nil => simp at h1
          | cons c' s' =>
            rcases Bool.and_eq_true_iff.mp h1 with ⟨h2, h3⟩
            refine Bool.and_eq_true_iff.mpr ⟨h2, ?_⟩
            exact globMatchF_mono _ _ _ _ (by simp; omega) (ih (c :: p') s' h3)
      · rw [if_neg hc] at h ⊢
        cases s with
        | nil => simp at h
        | cons c' s' =>
          rcases Bool.and_eq_true_iff.mp h with ⟨h2, h3⟩
          refine Bool.and_eq_true_iff.mpr ⟨h2, ?_⟩
          exact globMatchF_mono _ _ _ _ (by simp; omega) (ih p' s' h3)

theorem globMatch_of_GM (pat s : String) (h : GM pat.toList s.toList) :
    globMatch pat s = true := by
  obtain ⟨fuel, hf⟩ := h
  have := globMatchF_bound fuel _ _ hf
  unfold globMatch
  exact this

/-- Whether one option fails — and with which error — depends only on
the option's own arguments, never on the keeper it is applied to. -/
theorem applyOpt_error_indep (o : Opt) (k k' : Keeper) (e : Err)
    (h : applyOpt o k = .error e) : applyOpt o k' = .error e := by
  cases o with
  | withFolder p => simp [applyOpt] at h
  | withName n => simp [applyOpt] at h
  | withExtension e' => simp [applyOpt] at h
  | withTimeLayout l => simp [applyOpt] at h
  | withMaxSize n => simp [applyOpt] at h
  | withArchiveNameLayout l =>
    simp only [applyOpt] at h ⊢
    by_cases hlen : l.length = 0
    · rw [if_pos hlen] at h; simp at h
    · rw [if_neg hlen] at h ⊢
      cases hp : parseLayout l with
      | none => rw [hp] at h; exact h
      | some t => rw [hp] at h; simp at h
  | withMaxFiles n => simp [applyOpt] at h
  | noCron => simp [applyOpt] at h
  | withGzipLevel lvl =>
    simp only [applyOpt] at h ⊢
    by_cases hb : lvl < -2 ∨ lvl > 9
    · rw [if_pos hb] at h ⊢; exact h
    · rw [if_neg hb] at h; simp at h
  | noCompression => simp [applyOpt] at h
  | withTotalSize n => simp [applyOpt] at h

theorem applyLoop_none_indep : ∀ (opts : List Opt) (k k' : Keeper),
    (applyLoop k opts).2 = none → (applyLoop k' opts).2 = none := by
  intro opts
  induction opts with
  | nil => intro k k' _; rfl
  | cons o os ih =>
    intro k k' h
    unfold applyLoop at h ⊢
    cases hk : applyOpt o k with
    | error e => rw [hk] at h; simp at h
    | ok k1 =>
      rw [hk] at h
      cases hk' : applyOpt o k' with
      | error e' =>
        have := applyOpt_error_indep o k' k e' hk'
        rw [this] at hk
        simp at hk
      | ok k1' => exact ih k1 k1' h

theorem applyOpts_ok_loop (k : Keeper) (opts : List Opt) (fs : FS)
    (now : Nat) (k' : Keeper) (fs' : FS)
    (h : applyOpts k opts fs now = (k', fs', none)) :
    (applyLoop k opts).2 = none := by
  unfold applyOpts at h
  split at h
  · simp at h
  · rename_i k1 hloop
    rw [hloop]

/-- A failing `applyOpts` failed either inside the option loop or in
one of its two filesystem steps, whose errors are never configuration
errors. -/
theorem applyOpts_err_cases (k : Keeper) (opts : List Opt) (fs : FS)
    (now : Nat) (k' : Keeper) (fs' : FS) (e : Err)
    (h : applyOpts k opts fs now = (k', fs', some e)) :
    (applyLoop k opts).2 = some e ∨ e = .statFail ∨
    e = .wrap "failed to get archive pattern" .emptyPattern := by
  unfold applyOpts at h
  split at h
  · rename_i k1 e1 hloop
    simp only [Prod.mk.injEq] at h
    obtain ⟨-, -, he⟩ := h
    left
    rw [hloop, ← Option.some.injEq _ _ |>.mpr rfl]
    simp only [Option.some.injEq] at he ⊢
    exact he
  · rename_i k1 hloop
    dsimp only at h
    split at h
    · simp only [Prod.mk.injEq] at h
      obtain ⟨-, -, he⟩ := h
      simp only [Option.some.injEq] at he
      right; left; exact he.symm
    · rename_i f hstat
      split at h
      · simp only [Prod.mk.injEq] at h
        obtain ⟨-, -, he⟩ := h
        simp only [Option.some.injEq] at he
        right; right; exact he.symm
      · rename_i pattern hpat
        split at h
        · simp only [Prod.mk.injEq] at h
          obtain ⟨-, -, he⟩ := h
          simp only [Option.some.injEq] at he
          right; left; exact he.symm
        · simp at h

/-- C7: when a construction call finds an existing shared instance
under the same logical name and reconfiguring fails with a
configuration error, the error is surfaced synchronously by `New` and
the registry — hence the shared instance and every configuration field
of it — is left exactly as it was.  (In the sequential model the
deterministic candidate pass fails first on any configuration error, so
the shared instance is never touched.) -/
theorem New_config_error_preserves_registry (opts : List Opt)
    (reg : Registry) (fs : FS) (now : Nat) (e : Err)
    (h : errOf (New opts reg fs now).2.2 = some e)
    (hcfg : e.isConfig = true) :
    (New opts reg fs now).1 = reg := by
  unfold New at h ⊢
  dsimp only at h ⊢
  split at h
  · rfl
  · rename_i k1 fs1 hcand
    split at h
    · rename_i hreg
      simp [errOf] at h
    · rename_i old hreg
      split at h
      · rename_i old' fs2 e2 hsecond
        simp only [errOf, Option.some.injEq] at h
        have hloop1 := applyOpts_ok_loop _ _ _ _ _ _ hcand
        have hloop2 := applyLoop_none_indep _ _ old hloop1
        rcases applyOpts_err_cases _ _ _ _ _ _ _ hsecond with hc | hc | hc
        · rw [hloop2] at hc; simp at hc
        · rw [← h] at hcfg
          rw [hc] at hcfg
          simp [Err.isConfig, Err.root] at hcfg
        · rw [← h] at hcfg
          rw [hc] at hcfg
          simp [Err.isConfig, Err.root] at hcfg
      · simp [errOf] at h

theorem evictLoop_lookup_mono (ts mf : Int) (archs : List FileInfo) :
    ∀ (asize : Int) (fs : FS) (a' : List FileInfo) (s' : Int) (f' : FS)
      (e : Option Err) (p : String),
      evictLoop ts mf archs asize fs = (a', s', f', e) →
      f'.lookup p = fs.lookup p ∨ f'.lookup p = none := by
  induction archs with
  | nil =>
    intro asize fs a' s' f' e p h
    unfold evictLoop at h
    split at h <;>
      · simp only [Prod.mk.injEq] at h
        obtain ⟨-, -, h3, -⟩ := h
        rw [← h3]
        exact Or.inl rfl
  | cons o rest ih =>
    intro asize fs a' s' f' e p h
    unfold evictLoop at h
    split at h
    · cases hrem : osRemove o.filePath fs with
      | error err =>
        rw [hrem] at h
        simp only [Prod.mk.injEq] at h
        obtain ⟨-, -, h3, -⟩ := h
        rw [← h3]
        exact Or.inl rfl
      | ok fs2 =>
        rw [hrem] at h
        have hstep : fs2.lookup p = fs.lookup p ∨ fs2.lookup p = none := by
          unfold osRemove at hrem
          split at hrem
          · exact absurd hrem (by simp)
          · simp only [Except.ok.injEq] at hrem
            rw [← hrem]
            simp only [FS.lookup_removeFile]
            by_cases hp : o.filePath = p
            · rw [if_pos hp]; exact Or.inr rfl
            · rw [if_neg hp]; exact Or.inl rfl
        rcases ih _ _ _ _ _ _ p h with h1 | h1
        · rcases hstep with h2 | h2
          · exact Or.inl (h1.trans h2)
          · exact Or.inr (h1.trans h2)
        · exact Or.inr h1
    · simp only [Prod.mk.injEq] at h
      obtain ⟨-, -, h3, -⟩ := h
      rw [← h3]
      exact Or.inl rfl

/-- After a successful rotation without compression, whatever file
remains at the rendered archive name carries exactly the bytes the
current file held before the rotation (it may also have been evicted
already, in which case nothing is there). -/
theorem rotate_ok_archive_content (s : State) (t : String) (n : Nat)
    (s' : State) (f : FsFile)
    (hlook : s.fs.lookup (currentFilePath s.keeper) = some f)
    (hcomp : s.keeper.compressorContructor = none)
    (hnm : newArchiveName s.keeper t ≠ currentFilePath s.keeper)
    (h : rotate s t n = (s', none)) :
    ∀ g, s'.fs.lookup (newArchiveName s.keeper t) = some g →
      g.content = f.content := by
  unfold rotate at h
  split at h
  · simp at h
  · rename_i h' hclose
    dsimp only at h
    rw [hcomp] at h
    dsimp only at h
    split at h
    · simp at h
    · rename_i fs1 hren
      split at h
      · simp at h
      · rename_i info hinfo
        split at h
        · simp at h
        · rename_i archs asize fs3 hevict
          simp only [Prod.mk.injEq] at h
          obtain ⟨hs, -⟩ := h
          have hnm1 : fs1.lookup (newArchiveName s.keeper t) =
              some ⟨f.content, f.modtime⟩ := by
            unfold osRename at hren
            split at hren
            · exact absurd hren (by simp)
            · rename_i f0 heq0
              have hf0 : f0 = f := by
                have : s.fs.lookup (currentFilePath s.keeper) = some f0 :=
                  heq0
                rw [hlook] at this
                simpa using this.symm
              simp only [Except.ok.injEq] at hren
              rw [← hren]
              simp only [FS.lookup_setFile, FS.lookup_removeFile]
              show (if newArchiveName s.keeper t = newArchiveName s.keeper t
                  then some f0
                  else if currentFilePath s.keeper = newArchiveName s.keeper t
                    then none
                    else s.fs.lookup (newArchiveName s.keeper t)) =
                some ⟨f.content, f.modtime⟩
              rw [if_pos rfl, hf0]
          have hfs3 := evictLoop_lookup_mono _ _ _ _ _ _ _ _ _
            (newArchiveName s.keeper t) hevict
          intro g hg
          rw [← hs] at hg
          have hopen : ((openAppend (currentFilePath s.keeper) fs3
              n).1).lookup (newArchiveName s.keeper t) =
              fs3.lookup (newArchiveName s.keeper t) := by
            unfold openAppend
            split
            · rfl
            · simp only [FS.lookup_setFile]
              rw [if_neg (fun hc => hnm hc.symm)]
          have hg2 : ((openAppend (currentFilePath s.keeper) fs3
              n).1).lookup (newArchiveName s.keeper t) = some g := hg
          rw [hopen] at hg2
          have hg := hg2
          rcases hfs3 with h1 | h1
          · rw [h1, hnm1] at hg
            simp only [Option.some.injEq] at hg
            rw [← hg]
          · rw [h1] at hg
            exact absurd hg (by simp)

/-- C8: once `Close()` has returned successfully, the file produced by
the close-time rotation holds exactly the bytes written before the
close, and every subsequent `Write` — rotating or not — fails with an
error rooted in the closed-file error, appending nothing and leaving
the state untouched. -/
theorem close_is_terminal (s : State) (reg : Registry) (t : String)
    (n : Nat) (s' : State) (reg' : Registry) (f : FsFile)
    (hlook : s.fs.lookup (currentFilePath s.keeper) = some f)
    (hcomp : s.keeper.compressorContructor = none)
    (hnm : newArchiveName s.keeper t ≠ currentFilePath s.keeper)
    (h : Close s reg t n = (s', reg', none)) :
    (∀ g, s'.fs.lookup (newArchiveName s.keeper t) = some g →
      g.content = f.content) ∧
    (∀ (msg : List Nat) (n2 : Nat) (t2 : String),
      (∃ e, (Write s' msg n2 t2).2 = Except.error e ∧
        e.rootIsClosed = true) ∧
      (Write s' msg n2 t2).1 = s') := by
  unfold Close at h
  split at h
  · simp at h
  · rename_i s1 hrot
    dsimp only at h
    have hcf := (rotate_ok_spec s t n s1 hrot).2.1
    rw [hcf] at h
    rw [show fsClose (⟨currentFilePath s.keeper, true⟩ : Handle) =
      Except.ok ⟨currentFilePath s.keeper, false⟩ from rfl] at h
    dsimp only at h
    simp only [Prod.mk.injEq] at h
    obtain ⟨hs, -, -⟩ := h
    have hclosed : s'.keeper.currentFile =
        ⟨currentFilePath s.keeper, false⟩ := by
      rw [← hs]
    have hfs : s'.fs = s1.fs := by rw [← hs]
    constructor
    · intro g hg
      refine rotate_ok_archive_content s t n s1 f hlook hcomp hnm
        hrot g ?_
      rw [← hfs]
      exact hg
    · intro msg n2 t2
      unfold Write
      dsimp only
      by_cases hr : s'.keeper.shouldRotate msg = true
      · rw [if_pos hr]
        have hrfail : rotate s' t2 n2 =
            (s', some (.wrap "failed to rotate log file" .closed)) := by
          unfold rotate
          rw [show fsClose s'.keeper.currentFile = Except.error .closed by
            rw [hclosed]; rfl]
        rw [hrfail]
        exact ⟨⟨_, rfl, rfl⟩, rfl⟩
      · rw [if_neg hr]
        dsimp only
        have hwfail : fsWrite s'.keeper.currentFile msg n2 s'.fs =
            Except.error .closed := by
          rw [hclosed]; rfl
        rw [hwfail]
        exact ⟨⟨_, rfl, rfl⟩, rfl⟩

/-- C8 witness: a concrete close followed by a write that fails with
the closed-file error and changes nothing. -/
theorem close_is_terminal_witness :
    (∃ e, (Write (Close ⟨mkKeeper stdLayout 10 0 0 3, fsOne [7, 7, 7]⟩
        [] "T1" 5).1 [1] 6 "T2").2 = Except.error e ∧
      e.rootIsClosed = true) ∧
    (Write (Close ⟨mkKeeper stdLayout 10 0 0 3, fsOne [7, 7, 7]⟩
        [] "T1" 5).1 [1] 6 "T2").1 =
      (Close ⟨mkKeeper stdLayout 10 0 0 3, fsOne [7, 7, 7]⟩
        [] "T1" 5).1 := by
  have h2 : (Close ⟨mkKeeper stdLayout 10 0 0 3, fsOne [7, 7, 7]⟩
      [] "T1" 5).2.2 = none := by decide
  have h := (Prod.mk.eta
    (p := Close ⟨mkKeeper stdLayout 10 0 0 3, fsOne [7, 7, 7]⟩
      [] "T1" 5)).symm
  have h2' := (Prod.mk.eta
    (p := (Close ⟨mkKeeper stdLayout 10 0 0 3, fsOne [7, 7, 7]⟩
      [] "T1" 5).2)).symm
  rw [h2] at h2'
  rw [h2'] at h
  exact (close_is_terminal _ [] "T1" 5 _ _ ⟨[7, 7, 7], 0⟩ (by decide)
    rfl (by decide) h).2 [1] 6 "T2"

theorem evictLoop_success (ts mf : Int) (hts : ts ≤ 0) :
    ∀ (archs : List FileInfo) (asize : Int) (fs : FS),
      (∀ a ∈ archs, (fs.lookup a.filePath).isSome) →
      (archs.map FileInfo.filePath).Nodup →
      ∃ a' s' f', evictLoop ts mf archs asize fs = (a', s', f', none) := by
  intro archs
  induction archs with
  | nil =>
    intro asize fs _ _
    refine ⟨[], asize, fs, ?_⟩
    unfold evictLoop
    rw [if_neg]
    simp only [shouldDeleteOldestB, Bool.or_eq_true_iff,
      Bool.and_eq_true_iff, decide_eq_true_eq]
    rintro (⟨h1, -⟩ | ⟨h2a, h2b⟩)
    · omega
    · simp at h2b; omega
  | cons o rest ih =>
    intro asize fs hex hnd
    by_cases hc : shouldDeleteOldestB ts mf asize (o :: rest).length = true
    · have hol : ∃ g, fs.lookup o.filePath = some g := by
        have := hex o (by simp)
        cases hg : fs.lookup o.filePath with
        | none => rw [hg] at this; simp at this
        | some g => exact ⟨g, rfl⟩
      obtain ⟨g, hg⟩ := hol
      have hrem : osRemove o.filePath fs = .ok (fs.removeFile o.filePath) := by
        unfold osRemove
        rw [hg]
      have hex' : ∀ a ∈ rest, ((fs.removeFile o.filePath).lookup
          a.filePath).isSome := by
        intro a ha
        rw [FS.lookup_removeFile]
        rw [if_neg]
        · exact hex a (by simp [ha])
        · intro hcon
          have hnd' := List.nodup_cons.mp hnd
          exact hnd'.1 (hcon ▸ List.mem_map_of_mem FileInfo.filePath ha)
      obtain ⟨a', s', f', hrec⟩ := ih (asize - o.size)
        (fs.removeFile o.filePath) hex' (List.nodup_cons.mp hnd).2
      refine ⟨a', s', f', ?_⟩
      unfold evictLoop
      rw [if_pos hc, hrem]
      exact hrec
    · refine ⟨o :: rest, asize, fs, ?_⟩
      unfold evictLoop
      rw [if_neg hc]

theorem evictLoop_suffix (ts mf : Int) :
    ∀ (archs : List FileInfo) (asize : Int) (fs : FS) (a' : List FileInfo)
      (s' : Int) (f' : FS),
      evictLoop ts mf archs asize fs = (a', s', f', none) →
      a' = archs.drop (archs.length - a'.length) ∧
      a'.length ≤ archs.length := by
  intro archs
  induction archs with
  | nil =>
    intro asize fs a' s' f' h
    unfold evictLoop at h
    split at h
    · simp at h
    · simp only [Prod.mk.injEq] at h
      obtain ⟨h1, -⟩ := h
      rw [← h1]
      exact ⟨rfl, le_refl _⟩
  | cons o rest ih =>
    intro asize fs a' s' f' h
    unfold evictLoop at h
    split at h
    · cases hrem : osRemove o.filePath fs with
      | error err => rw [hrem] at h; simp at h
      | ok fs2 =>
        rw [hrem] at h
        obtain ⟨h1, h2⟩ := ih _ _ _ _ _ h
        constructor
        · rw [show (o :: rest).length - a'.length =
            (rest.length - a'.length) + 1 by simp; omega]
          simpa using h1
        · simp; omega
    · simp only [Prod.mk.injEq] at h
      obtain ⟨h1, -⟩ := h
      rw [← h1]
      exact ⟨by simp, le_refl _⟩

theorem evictLoop_len_eq (ts : Int) (K : Nat) (hts : ts ≤ 0) (hK : 0 < K) :
    ∀ (archs : List FileInfo) (asize : Int) (fs : FS) (a' : List FileInfo)
      (s' : Int) (f' : FS),
      evictLoop ts (K : Int) archs asize fs = (a', s', f', none) →
      a'.length = min archs.length K := by
  intro archs
  induction archs with
  | nil =>
    intro asize fs a' s' f' h
    unfold evictLoop at h
    split at h
    · simp at h
    · simp only [Prod.mk.injEq] at h
      obtain ⟨h1, -⟩ := h
      rw [← h1]
      simp
  | cons o rest ih =>
    intro asize fs a' s' f' h
    unfold evictLoop at h
    split at h
    · rename_i hc
      cases hrem : osRemove o.filePath fs with
      | error err => rw [hrem] at h; simp at h
      | ok fs2 =>
        rw [hrem] at h
        have h1 := ih _ _ _ _ _ h
        have hlen : K < (o :: rest).length := by
          simp only [shouldDeleteOldestB, Bool.or_eq_true_iff,
            Bool.and_eq_true_iff, decide_eq_true_eq] at hc
          rcases hc with ⟨hgt, -⟩ | ⟨-, hlt⟩
          · omega
          · exact_mod_cast hlt
        rw [h1]
        simp at hlen ⊢
        omega
    · rename_i hc
      simp only [Prod.mk.injEq] at h
      obtain ⟨h1, -⟩ := h
      rw [← h1]
      have hlen : (o :: rest).length ≤ K := by
        simp only [shouldDeleteOldestB, Bool.or_eq_true_iff,
          Bool.and_eq_true_iff, decide_eq_true_eq, not_or, not_and,
          Bool.not_eq_true] at hc
        obtain ⟨-, hc2⟩ := hc
        have h3 := hc2 (by exact_mod_cast hK)
        exact_mod_cast not_lt.mp h3
      simp at hlen ⊢
      omega

theorem evictLoop_fs_lookup (ts mf : Int) :
    ∀ (archs : List FileInfo) (asize : Int) (fs : FS) (a' : List FileInfo)
      (s' : Int) (f' : FS) (p : String),
      evictLoop ts mf archs asize fs = (a', s', f', none) →
      f'.lookup p =
        if p ∈ (archs.take (archs.length - a'.length)).map
            FileInfo.filePath
        then none else fs.lookup p := by
  intro archs
  induction archs with
  | nil =>
    intro asize fs a' s' f' p h
    unfold evictLoop at h
    split at h
    · simp at h
    · simp only [Prod.mk.injEq] at h
      obtain ⟨h1, -, h3, -⟩ := h
      rw [← h1, ← h3]
      simp
  | cons o rest ih =>
    intro asize fs a' s' f' p h
    unfold evictLoop at h
    split at h
    · cases hrem : osRemove o.filePath fs with
      | error err => rw [hrem] at h; simp at h
      | ok fs2 =>
        rw [hrem] at h
        have h1 := ih _ _ _ _ _ p h
        have hsuf := (evictLoop_suffix ts mf _ _ _ _ _ _ h).2
        have hfs2 : fs2.lookup p =
            if o.filePath = p then none else fs.lookup p := by
          unfold osRemove at hrem
          split at hrem
          · exact absurd hrem (by simp)
          · simp only [Except.ok.injEq] at hrem
            rw [← hrem, FS.lookup_removeFile]
        rw [show (o :: rest).length - a'.length =
          (rest.length - a'.length) + 1 by simp; omega] at *
        rw [List.take_succ_cons, List.map_cons] at *
        rw [h1, hfs2]
        by_cases hp1 : p ∈ (rest.take (rest.length - a'.length)).map
            FileInfo.filePath
        · rw [if_pos hp1, if_pos (List.mem_cons.mpr (Or.inr hp1))]
        · rw [if_neg hp1]
          by_cases hp2 : o.filePath = p
          · rw [if_pos hp2,
              if_pos (List.mem_cons.mpr (Or.inl hp2.symm))]
          · rw [if_neg hp2, if_neg]
            simp only [List.mem_cons]
            rintro (hc | hc)
            · exact hp2 hc.symm
            · exact hp1 hc
    · simp only [Prod.mk.injEq] at h
      obtain ⟨h1, -, h3, -⟩ := h
      rw [← h1, ← h3]
      simp

/-- Under the well-formedness conditions of a retention run — open
handle on an existing current file, no compression, fresh distinct
archive name, tracked archive files present and distinct — a rotation
cannot fail. -/
theorem rotate_no_fail (s : State) (t : String) (n : Nat) (s1 : State)
    (e : Err) (f : FsFile)
    (hts : s.keeper.totalSize ≤ 0)
    (hcomp : s.keeper.compressorContructor = none)
    (hfile : s.keeper.currentFile = ⟨currentFilePath s.keeper, true⟩)
    (hlook : s.fs.lookup (currentFilePath s.keeper) = some f)
    (hnd : (s.keeper.archives.map FileInfo.filePath).Nodup)
    (hcp : ∀ p ∈ s.keeper.archives.map FileInfo.filePath,
      p ≠ currentFilePath s.keeper)
    (hnmp : newArchiveName s.keeper t ∉
      s.keeper.archives.map FileInfo.filePath)
    (hex : ∀ p ∈ s.keeper.archives.map FileInfo.filePath,
      (s.fs.lookup p).isSome)
    (h : rotate s t n = (s1, some e)) : False := by
  unfold rotate at h
  split at h
  · rename_i e0 hclose
    rw [hfile] at hclose
    simp [fsClose] at hclose
  · rename_i h' hclose
    dsimp only at h
    rw [hcomp] at h
    dsimp only at h
    split at h
    · rename_i e0 hren
      unfold osRename at hren
      split at hren
      · rename_i hnone
        have hnone' : s.fs.lookup (currentFilePath s.keeper) = none := hnone
        rw [hlook] at hnone'
        simp at hnone'
      · simp at hren
    · rename_i fs1 hren
      have hren' : (s.fs.removeFile (currentFilePath s.keeper)).setFile
          (newArchiveName s.keeper t) f = fs1 := by
        unfold osRename at hren
        split at hren
        · exact absurd hren (by simp)
        · rename_i f0 heq0
          have heq0' : s.fs.lookup (currentFilePath s.keeper) = some f0 :=
            heq0
          rw [hlook] at heq0'
          simp only [Option.some.injEq] at heq0'
          simp only [Except.ok.injEq] at hren
          rw [heq0']
          exact hren
      have hfs1 : ∀ p, fs1.lookup p =
          if newArchiveName s.keeper t = p then some f
          else if currentFilePath s.keeper = p then none
          else s.fs.lookup p := by
        intro p
        rw [← hren']
        simp only [FS.lookup_setFile, FS.lookup_removeFile]
      split at h
      · rename_i hinfo
        have hinfo' : getFileInfo (newArchiveName s.keeper t) fs1 =
            none := hinfo
        unfold getFileInfo at hinfo'
        rw [hfs1, if_pos rfl] at hinfo'
        simp at hinfo'
      · rename_i info hinfo
        have hinfo' : getFileInfo (newArchiveName s.keeper t) fs1 =
            some info := hinfo
        unfold getFileInfo at hinfo'
        rw [hfs1, if_pos rfl] at hinfo'
        simp only [Option.some.injEq] at hinfo'
        have hexx : ∀ a ∈ s.keeper.archives ++ [info],
            (fs1.lookup a.filePath).isSome := by
          intro a ha
          rcases List.mem_append.mp ha with ha | ha
          · rw [hfs1]
            have hap : a.filePath ∈
                s.keeper.archives.map FileInfo.filePath :=
              List.mem_map_of_mem FileInfo.filePath ha
            rw [if_neg (fun hc => hnmp (by rw [hc]; exact hap)),
              if_neg (fun hc => hcp _ hap hc.symm)]
            exact hex _ hap
          · have : a = info := by simpa using ha
            rw [this, ← hinfo', hfs1, if_pos rfl]
            rfl
        have hndx : ((s.keeper.archives ++ [info]).map
            FileInfo.filePath).Nodup := by
          rw [List.map_append]
          rw [List.nodup_append]
          refine ⟨hnd, by simp, ?_⟩
          intro p hp hq
          simp only [List.map_cons, List.map_nil, List.mem_singleton]
            at hq
          rw [← hinfo'] at hq
          have hq' : p = newArchiveName s.keeper t := hq
          apply hnmp
          rw [← hq']
          exact hp
        obtain ⟨a', s', f', hev⟩ := evictLoop_success s.keeper.totalSize
          s.keeper.maxFiles hts (s.keeper.archives ++ [info]) _ fs1 hexx
          hndx
        split at h
        · rename_i archs asize fs3 e2 hevict
          have : (archs, asize, fs3, some e2) = (a', s', f', none) := by
            rw [← hevict, ← hev]
          simp at this
        · simp at h

/-- The full effect of a successful rotation in a retention run: the
tracked window slides, and the filesystem holds the fresh empty current
file, loses exactly the evicted prefix, and gains the archive under its
new name. -/
theorem rotate_ok_window (s : State) (t : String) (n : Nat) (s1 : State)
    (K : Nat) (f : FsFile)
    (hmf : s.keeper.maxFiles = (K : Int)) (hK : 0 < K)
    (hts : s.keeper.totalSize ≤ 0)
    (hcomp : s.keeper.compressorContructor = none)
    (hlook : s.fs.lookup (currentFilePath s.keeper) = some f)
    (hnmcp : newArchiveName s.keeper t ≠ currentFilePath s.keeper)
    (h : rotate s t n = (s1, none)) :
    s1.keeper.archives.map FileInfo.filePath =
      (s.keeper.archives.map FileInfo.filePath ++
        [newArchiveName s.keeper t]).drop
        ((s.keeper.archives.length + 1) - K) ∧
    (∀ p, s1.fs.lookup p =
      if p = currentFilePath s.keeper then some ⟨[], n⟩
      else if p ∈ (s.keeper.archives.map FileInfo.filePath ++
          [newArchiveName s.keeper t]).take
          ((s.keeper.archives.length + 1) - K) then none
      else if p = newArchiveName s.keeper t then
        some ⟨f.content, f.modtime⟩
      else s.fs.lookup p) := by
  unfold rotate at h
  split at h
  · simp at h
  · rename_i h' hclose
    dsimp only at h
    rw [hcomp] at h
    dsimp only at h
    split at h
    · simp at h
    · rename_i fs1 hren
      have hren' : (s.fs.removeFile (currentFilePath s.keeper)).setFile
          (newArchiveName s.keeper t) f = fs1 := by
        unfold osRename at hren
        split at hren
        · exact absurd hren (by simp)
        · rename_i f0 heq0
          have heq0' : s.fs.lookup (currentFilePath s.keeper) = some f0 :=
            heq0
          rw [hlook] at heq0'
          simp only [Option.some.injEq] at heq0'
          simp only [Except.ok.injEq] at hren
          rw [heq0']
          exact hren
      have hfs1 : ∀ p, fs1.lookup p =
          if newArchiveName s.keeper t = p then some f
          else if currentFilePath s.keeper = p then none
          else s.fs.lookup p := by
        intro p
        rw [← hren']
        simp only [FS.lookup_setFile, FS.lookup_removeFile]
      split at h
      · simp at h
      · rename_i info hinfo
        have hinfo' : getFileInfo (newArchiveName s.keeper t) fs1 =
            some info := hinfo
        unfold getFileInfo at hinfo'
        rw [hfs1, if_pos rfl] at hinfo'
        simp only [Option.some.injEq] at hinfo'
        split at h
        · simp at h
        · rename_i archs asize fs3 hevict
          simp only [Prod.mk.injEq] at h
          obtain ⟨hs, -⟩ := h
          rw [hmf] at hevict
          have hmapx : (s.keeper.archives ++ [info]).map
              FileInfo.filePath =
              s.keeper.archives.map FileInfo.filePath ++
                [newArchiveName s.keeper t] := by
            rw [List.map_append, ← hinfo']
            rfl
          have hlen := evictLoop_len_eq s.keeper.totalSize K hts hK
            _ _ _ _ _ _ hevict
          have hsuf := (evictLoop_suffix s.keeper.totalSize (K : Int)
            _ _ _ _ _ _ hevict).1
          have hdropamt : (s.keeper.archives ++ [info]).length -
              archs.length = (s.keeper.archives.length + 1) - K := by
            rw [hlen]
            simp
            omega
          have hmap1 : archs.map FileInfo.filePath =
              (s.keeper.archives.map FileInfo.filePath ++
                [newArchiveName s.keeper t]).drop
                ((s.keeper.archives.length + 1) - K) := by
            rw [hsuf, hdropamt, List.map_drop, hmapx]
          have hfs3 := fun p => evictLoop_fs_lookup s.keeper.totalSize
            (K : Int) _ _ _ _ _ _ p hevict
          have htake : ((s.keeper.archives ++ [info]).take
              ((s.keeper.archives ++ [info]).length -
                archs.length)).map FileInfo.filePath =
              (s.keeper.archives.map FileInfo.filePath ++
                [newArchiveName s.keeper t]).take
                ((s.keeper.archives.length + 1) - K) := by
            rw [hdropamt, List.map_take, hmapx]
          have hcpfs3 : fs3.lookup (currentFilePath s.keeper) = none := by
            rw [hfs3]
            by_cases hcpR : currentFilePath s.keeper ∈
                ((s.keeper.archives ++ [info]).take
                  ((s.keeper.archives ++ [info]).length -
                    archs.length)).map FileInfo.filePath
            · rw [if_pos hcpR]
            · rw [if_neg hcpR, hfs1,
                if_neg (fun hc => hnmcp hc),
                if_pos rfl]
          have hs1fs : s1.fs = (openAppend (currentFilePath s.keeper)
              fs3 n).1 := by rw [← hs]; rfl
          have hopen : (openAppend (currentFilePath s.keeper) fs3 n).1 =
              fs3.setFile (currentFilePath s.keeper) ⟨[], n⟩ := by
            unfold openAppend
            rw [hcpfs3]
          constructor
          · have hs1a : s1.keeper.archives = archs := by rw [← hs]
            rw [hs1a, hmap1]
          · intro p
            rw [hs1fs, hopen]
            simp only [FS.lookup_setFile]
            by_cases hp1 : p = currentFilePath s.keeper
            · rw [if_pos hp1.symm, if_pos hp1]
            · rw [if_neg (fun hc => hp1 hc.symm), if_neg hp1]
              rw [hfs3 p]
              by_cases hp2 : p ∈ ((s.keeper.archives ++ [info]).take
                  ((s.keeper.archives ++ [info]).length -
                    archs.length)).map FileInfo.filePath
              · rw [if_pos hp2]
                rw [if_pos (by rw [← htake]; exact hp2)]
              · rw [if_neg hp2]
                rw [if_neg (by intro hc; apply hp2; rw [htake]; exact hc)]
                rw [hfs1 p]
                by_cases hp3 : newArchiveName s.keeper t = p
                · rw [if_pos hp3, if_pos hp3.symm]
                · rw [if_neg hp3, if_neg (fun hc => hp1 hc.symm),
                    if_neg (fun hc => hp3 hc.symm)]

theorem newArchiveName_congr (k k' : Keeper) (t : String)
    (h1 : k.folder = k'.folder) (h2 : k.name = k'.name)
    (h3 : k.extension = k'.extension)
    (h4 : k.archiveNameLayout = k'.archiveNameLayout) :
    newArchiveName k t = newArchiveName k' t := by
  unfold newArchiveName
  rw [h1, h2, h3, h4]

theorem currentFilePath_congr (k k' : Keeper)
    (h1 : k.folder = k'.folder) (h2 : k.name = k'.name)
    (h3 : k.extension = k'.extension) :
    currentFilePath k = currentFilePath k' := by
  unfold currentFilePath
  rw [h1, h2, h3]

theorem window_drop_assoc {α : Type} (l R : List α) (K : Nat) :
    ((l.drop (l.length - K)) ++ R).drop
      (((l.drop (l.length - K)).length + R.length) - K) =
    (l ++ R).drop ((l.length + R.length) - K) := by
  rw [List.length_drop]
  rw [← List.drop_append_of_le_length (by omega)]
  rw [List.drop_drop]
  congr 1
  omega

theorem window_take_assoc {α : Type} (l R : List α) (K : Nat) :
    (l ++ R).take ((l.length + R.length) - K) =
    l.take (l.length - K) ++
      ((l.drop (l.length - K)) ++ R).take
        (((l.drop (l.length - K)).length + R.length) - K) := by
  rw [List.length_drop]
  rw [← List.drop_append_of_le_length (n := l.length - K) (by omega)]
  rw [show (l.length + R.length) - K =
    (l.length - K) + ((l.length - (l.length - K) + R.length) - K) by omega]
  rw [List.take_add]
  congr 1
  rw [List.take_append_of_le_length (by omega)]

theorem nodup_take_drop_disjoint {α : Type} (l : List α) (j : Nat)
    (hnd : l.Nodup) (p : α) (hp : p ∈ l.drop j) : p ∉ l.take j := by
  intro hc
  have hsplit := List.take_append_drop j l
  rw [← hsplit] at hnd
  exact (List.nodup_append.mp hnd).2.2 hc hp

/-- The inductive engine behind count-based retention: running any
sequence of fresh, distinct rotations slides the tracked window, keeps
the retained archive files on disk and leaves every evicted file
deleted. `W` is the current window of archive paths, `E` the paths
already evicted. -/
theorem rotSeq_retention_aux (K : Nat) (hK : 0 < K) :
    ∀ (inputs : List (String × Nat)) (s : State) (W E : List String),
      s.keeper.maxFiles = (K : Int) →
      s.keeper.totalSize ≤ 0 →
      s.keeper.compressorContructor = none →
      s.keeper.currentFile = ⟨currentFilePath s.keeper, true⟩ →
      (∃ g, s.fs.lookup (currentFilePath s.keeper) = some g) →
      s.keeper.archives.map FileInfo.filePath = W →
      W.Nodup →
      W.length ≤ K →
      (∀ p ∈ W, p ≠ currentFilePath s.keeper) →
      (∀ p ∈ W, (s.fs.lookup p).isSome) →
      (∀ p ∈ E, s.fs.lookup p = none) →
      (∀ p ∈ E, p ≠ currentFilePath s.keeper) →
      (∀ i ∈ inputs,
        newArchiveName s.keeper i.1 ≠ currentFilePath s.keeper) →
      (∀ i ∈ inputs, newArchiveName s.keeper i.1 ∉ W) →
      (∀ i ∈ inputs, newArchiveName s.keeper i.1 ∉ E) →
      ((inputs.map (fun i => newArchiveName s.keeper i.1)).Nodup) →
      ∃ s2, rotSeq s inputs = (s2, none) ∧
        s2.keeper.archives.map FileInfo.filePath =
          (W ++ inputs.map (fun i => newArchiveName s.keeper i.1)).drop
            ((W.length + inputs.length) - K) ∧
        (∀ p ∈ (W ++ inputs.map
              (fun i => newArchiveName s.keeper i.1)).drop
            ((W.length + inputs.length) - K),
          (s2.fs.lookup p).isSome) ∧
        (∀ p ∈ E ++ (W ++ inputs.map
              (fun i => newArchiveName s.keeper i.1)).take
            ((W.length + inputs.length) - K),
          s2.fs.lookup p = none) := by
  intro inputs
  induction inputs with
  | nil =>
    intro s W E hmf hts hcomp hfile hg harchmap hnd hwl hWcp hWsome
      hEnone hEcp hFcp hFW hFE hFnd
    have hd0 : W.length + ([] : List (String × Nat)).length - K = 0 := by
      simp; omega
    refine ⟨s, rfl, ?_, ?_, ?_⟩
    · simp only [List.map_nil, List.append_nil, hd0, List.drop_zero]
      exact harchmap
    · intro p hp
      simp only [List.map_nil, List.append_nil, hd0, List.drop_zero] at hp
      exact hWsome p hp
    · intro p hp
      simp only [List.map_nil, List.append_nil, hd0, List.take_zero,
        List.append_nil] at hp
      exact hEnone p hp
  | cons i rest ih =>
    obtain ⟨t, n⟩ := i
    intro s W E hmf hts hcomp hfile hg harchmap hnd hwl hWcp hWsome
      hEnone hEcp hFcp hFW hFE hFnd
    obtain ⟨g, hg⟩ := hg
    have hnmcp : newArchiveName s.keeper t ≠ currentFilePath s.keeper :=
      hFcp (t, n) (by simp)
    have hnmW : newArchiveName s.keeper t ∉ W := hFW (t, n) (by simp)
    have hnmE : newArchiveName s.keeper t ∉ E := hFE (t, n) (by simp)
    have hlw : s.keeper.archives.length = W.length := by
      rw [← harchmap, List.length_map]
    cases hr : rotate s t n with
    | mk s1 er =>
      cases er with
      | some e =>
        exact (rotate_no_fail s t n s1 e g hts hcomp
          hfile hg (by rw [harchmap]; exact hnd)
          (by rw [harchmap]; exact hWcp)
          (by rw [harchmap]; exact hnmW)
          (by rw [harchmap]; exact hWsome) hr).elim
      | none =>
        obtain ⟨hmap1, hform⟩ := rotate_ok_window s t n s1 K g hmf hK
          hts hcomp hg hnmcp hr
        obtain ⟨hsz0, hcf1, hfold, hname, hext, hms, hmf1, hts1, hlay,
          hcompr⟩ := rotate_ok_spec s t n s1 hr
        have hcpeq : currentFilePath s1.keeper = currentFilePath s.keeper :=
          currentFilePath_congr _ _ hfold hname hext
        have hnmeq : ∀ t', newArchiveName s1.keeper t' =
            newArchiveName s.keeper t' := fun t' =>
          newArchiveName_congr _ _ t' hfold hname hext hlay
        have hL : (W ++ [newArchiveName s.keeper t]).length =
            W.length + 1 := by simp
        have hndW1 : (W ++ [newArchiveName s.keeper t]).Nodup := by
          rw [List.nodup_append]
          refine ⟨hnd, by simp, ?_⟩
          intro p hp hq
          simp only [List.mem_singleton] at hq
          rw [hq] at hp
          exact hnmW hp
        -- the new window and evicted set
        have hmemW' : ∀ p ∈ (W ++ [newArchiveName s.keeper t]).drop
            ((W ++ [newArchiveName s.keeper t]).length - K),
            p ∈ W ∨ p = newArchiveName s.keeper t := by
          intro p hp
          have := List.mem_of_mem_drop hp
          rcases List.mem_append.mp this with h | h
          · exact Or.inl h
          · exact Or.inr (by simpa using h)
        have hmemT : ∀ p ∈ (W ++ [newArchiveName s.keeper t]).take
            ((W ++ [newArchiveName s.keeper t]).length - K),
            p ∈ W ∨ p = newArchiveName s.keeper t := by
          intro p hp
          have := List.mem_of_mem_take hp
          rcases List.mem_append.mp this with h | h
          · exact Or.inl h
          · exact Or.inr (by simpa using h)
        have hdropamt : (s.keeper.archives.length + 1) - K =
            (W ++ [newArchiveName s.keeper t]).length - K := by
          rw [hL, hlw]
        have hform' : ∀ p, s1.fs.lookup p =
            if p = currentFilePath s.keeper then some ⟨[], n⟩
            else if p ∈ (W ++ [newArchiveName s.keeper t]).take
                ((W ++ [newArchiveName s.keeper t]).length - K) then none
            else if p = newArchiveName s.keeper t then
              some ⟨g.content, g.modtime⟩
            else s.fs.lookup p := by
          intro p
          rw [hform p, ← hdropamt, harchmap]
        have hWcp' : ∀ p ∈ (W ++ [newArchiveName s.keeper t]).drop
            ((W ++ [newArchiveName s.keeper t]).length - K),
            p ≠ currentFilePath s.keeper := by
          intro p hp
          rcases hmemW' p hp with h | h
          · exact hWcp p h
          · rw [h]; exact hnmcp
        have hTcp : ∀ p ∈ (W ++ [newArchiveName s.keeper t]).take
            ((W ++ [newArchiveName s.keeper t]).length - K),
            p ≠ currentFilePath s.keeper := by
          intro p hp
          rcases hmemT p hp with h | h
          · exact hWcp p h
          · rw [h]; exact hnmcp
        have hnds : (rest.map (fun i => newArchiveName s.keeper i.1)).Nodup
            := by
          simp only [List.map_cons, List.nodup_cons] at hFnd
          exact hFnd.2
        have hheadfresh : ∀ i ∈ rest, newArchiveName s.keeper i.1 ≠
            newArchiveName s.keeper t := by
          intro i hi hc
          simp only [List.map_cons, List.nodup_cons] at hFnd
          exact hFnd.1 (hc ▸ List.mem_map_of_mem
            (fun i => newArchiveName s.keeper i.1) hi)
        obtain ⟨s2, hseq2, hmap2, hsome2, hnone2⟩ := ih s1
          ((W ++ [newArchiveName s.keeper t]).drop
            ((W ++ [newArchiveName s.keeper t]).length - K))
          (E ++ (W ++ [newArchiveName s.keeper t]).take
            ((W ++ [newArchiveName s.keeper t]).length - K))
          (by rw [hmf1]; exact hmf)
          (by rw [hts1]; exact hts)
          (by rw [hcompr]; exact hcomp)
          (by rw [hcf1, hcpeq])
          ⟨⟨[], n⟩, by rw [hcpeq, hform' _, if_pos rfl]⟩
          (by rw [hmap1, harchmap, hlw, hL])
          (List.Nodup.sublist (List.drop_sublist _ _) hndW1)
          (by rw [List.length_drop]; omega)
          (by rw [hcpeq]; exact hWcp')
          (by intro p hp
              rw [hform' p, if_neg (hWcp' p hp),
                if_neg (nodup_take_drop_disjoint _ _ hndW1 p hp)]
              by_cases hpn : p = newArchiveName s.keeper t
              · rw [if_pos hpn]; rfl
              · rw [if_neg hpn]
                rcases hmemW' p hp with h | h
                · exact hWsome p h
                · exact absurd h hpn)
          (by intro p hp
              rcases List.mem_append.mp hp with h | h
              · rw [hform' p, if_neg (hEcp p h)]
                by_cases htk : p ∈ (W ++ [newArchiveName s.keeper t]).take
                    ((W ++ [newArchiveName s.keeper t]).length - K)
                · rw [if_pos htk]
                · rw [if_neg htk,
                    if_neg (fun hc => hnmE (by rw [← hc]; exact h)),
                    hEnone p h]
              · rw [hform' p, if_neg (hTcp p h), if_pos h])
          (by intro p hp
              rw [hcpeq]
              rcases List.mem_append.mp hp with h | h
              · exact hEcp p h
              · exact hTcp p h)
          (by intro i hi
              rw [hnmeq, hcpeq]
              exact hFcp i (by simp [hi]))
          (by intro i hi hc
              rw [hnmeq] at hc
              rcases hmemW' _ hc with h | h
              · exact hFW i (by simp [hi]) h
              · exact hheadfresh i hi h)
          (by intro i hi hc
              rw [hnmeq] at hc
              rcases List.mem_append.mp hc with h | h
              · exact hFE i (by simp [hi]) h
              · rcases hmemT _ h with h2 | h2
                · exact hFW i (by simp [hi]) h2
                · exact hheadfresh i hi h2)
          (by rw [List.map_congr_left (fun i _ => hnmeq i.1)]
              exact hnds)
        have hmcongr : rest.map (fun i => newArchiveName s1.keeper i.1) =
            rest.map (fun i => newArchiveName s.keeper i.1) :=
          List.map_congr_left (fun i _ => hnmeq i.1)
        have hlistdrop :
            (((W ++ [newArchiveName s.keeper t]).drop
                ((W ++ [newArchiveName s.keeper t]).length - K)) ++
              rest.map (fun i => newArchiveName s.keeper i.1)).drop
              ((((W ++ [newArchiveName s.keeper t]).drop
                ((W ++ [newArchiveName s.keeper t]).length - K)).length +
                rest.length) - K) =
            ((W ++ [newArchiveName s.keeper t]) ++
              rest.map (fun i => newArchiveName s.keeper i.1)).drop
              (((W ++ [newArchiveName s.keeper t]).length +
                rest.length) - K) := by
          have h0 := window_drop_assoc (W ++ [newArchiveName s.keeper t])
            (rest.map (fun i => newArchiveName s.keeper i.1)) K
          simpa only [List.length_map] using h0
        have hlisttake :
            ((W ++ [newArchiveName s.keeper t]) ++
              rest.map (fun i => newArchiveName s.keeper i.1)).take
              (((W ++ [newArchiveName s.keeper t]).length +
                rest.length) - K) =
            (W ++ [newArchiveName s.keeper t]).take
              ((W ++ [newArchiveName s.keeper t]).length - K) ++
              (((W ++ [newArchiveName s.keeper t]).drop
                ((W ++ [newArchiveName s.keeper t]).length - K)) ++
                rest.map (fun i => newArchiveName s.keeper i.1)).take
                ((((W ++ [newArchiveName s.keeper t]).drop
                  ((W ++ [newArchiveName s.keeper t]).length - K)).length +
                  rest.length) - K) := by
          have h0 := window_take_assoc (W ++ [newArchiveName s.keeper t])
            (rest.map (fun i => newArchiveName s.keeper i.1)) K
          simpa only [List.length_map] using h0
        have hshape : (W ++ [newArchiveName s.keeper t]) ++
            rest.map (fun i => newArchiveName s.keeper i.1) =
            W ++ ((t, n) :: rest).map
              (fun i => newArchiveName s.keeper i.1) := by
          rw [List.map_cons, List.append_assoc]
          rfl
        have hlenshape : (W ++ [newArchiveName s.keeper t]).length +
            rest.length = W.length + ((t, n) :: rest).length := by
          simp only [List.length_append, List.length_cons,
            List.length_nil]
          omega
        rw [hmcongr] at hmap2 hsome2 hnone2
        refine ⟨s2, ?_, ?_, ?_, ?_⟩
        · show rotSeq s ((t, n) :: rest) = (s2, none)
          simp only [rotSeq]
          rw [hr]
          exact hseq2
        · rw [hmap2, hlistdrop, hshape, hlenshape]
        · intro p hp
          apply hsome2
          rw [hlistdrop, hshape, hlenshape]
          exact hp
        · intro p hp
          apply hnone2
          rw [List.append_assoc, ← hlisttake, hshape, hlenshape]
          exact hp

/-- C4: with count-based retention enabled at maxFiles = K > 0, size
retention disabled and no compression, starting from a keeper with an
open current file and no tracked archives, after N > K successful
rotations at pairwise-fresh archive names exactly K archive records
remain tracked, they are the K most recently rotated names (the final
suffix of the rotation sequence, eviction having removed the oldest
first), each of them is still present on disk, and every older archive
file has been deleted. -/
theorem count_retention (K : Nat) (inputs : List (String × Nat))
    (s : State) (hK : 0 < K) (hN : K < inputs.length)
    (hmf : s.keeper.maxFiles = (K : Int))
    (hts : s.keeper.totalSize ≤ 0)
    (hcomp : s.keeper.compressorContructor = none)
    (hfile : s.keeper.currentFile = ⟨currentFilePath s.keeper, true⟩)
    (hg : ∃ g, s.fs.lookup (currentFilePath s.keeper) = some g)
    (harch : s.keeper.archives = [])
    (hFcp : ∀ i ∈ inputs,
      newArchiveName s.keeper i.1 ≠ currentFilePath s.keeper)
    (hFnd : (inputs.map (fun i => newArchiveName s.keeper i.1)).Nodup) :
    ∃ s2, rotSeq s inputs = (s2, none) ∧
      s2.keeper.archives.length = K ∧
      s2.keeper.archives.map FileInfo.filePath =
        (inputs.map (fun i => newArchiveName s.keeper i.1)).drop
          (inputs.length - K) ∧
      (∀ p ∈ (inputs.map (fun i => newArchiveName s.keeper i.1)).drop
          (inputs.length - K), (s2.fs.lookup p).isSome) ∧
      (∀ p ∈ (inputs.map (fun i => newArchiveName s.keeper i.1)).take
          (inputs.length - K), s2.fs.lookup p = none) := by
  obtain ⟨s2, hseq, hmap, hsome, hnone⟩ :=
    rotSeq_retention_aux K hK inputs s [] [] hmf hts hcomp hfile hg
      (by rw [harch]; rfl) List.nodup_nil (by simp)
      (fun p hp => absurd hp (List.not_mem_nil p))
      (fun p hp => absurd hp (List.not_mem_nil p))
      (fun p hp => absurd hp (List.not_mem_nil p))
      (fun p hp => absurd hp (List.not_mem_nil p))
      hFcp
      (fun i _ => List.not_mem_nil _)
      (fun i _ => List.not_mem_nil _)
      hFnd
  simp only [List.nil_append, List.length_nil, Nat.zero_add]
    at hmap hsome hnone
  have hlen : s2.keeper.archives.length = K := by
    have hc := congrArg List.length hmap
    simp only [List.length_map, List.length_drop] at hc
    omega
  exact ⟨s2, hseq, hlen, hmap, hsome, hnone⟩

/-- C4 witness: with maxFiles = 2, three consecutive rotations at times
"A", "B", "C" succeed; exactly the two most recent archives (B's and
C's) remain tracked and on disk, while A's archive has been deleted. -/
theorem count_retention_witness :
    ∃ s2, rotSeq ⟨mkKeeper stdLayout 10 2 0 0, fsOne [7]⟩
        [("A", 1), ("B", 2), ("C", 3)] = (s2, none) ∧
      s2.keeper.archives.length = 2 ∧
      s2.keeper.archives.map FileInfo.filePath =
        (([("A", 1), ("B", 2), ("C", 3)] : List (String × Nat)).map
          (fun i =>
            newArchiveName (mkKeeper stdLayout 10 2 0 0) i.1)).drop
          (([("A", 1), ("B", 2), ("C", 3)] :
            List (String × Nat)).length - 2) ∧
      (∀ p ∈ (([("A", 1), ("B", 2), ("C", 3)] :
            List (String × Nat)).map
          (fun i =>
            newArchiveName (mkKeeper stdLayout 10 2 0 0) i.1)).drop
          (([("A", 1), ("B", 2), ("C", 3)] :
            List (String × Nat)).length - 2),
        ((s2.fs.lookup p).isSome)) ∧
      (∀ p ∈ (([("A", 1), ("B", 2), ("C", 3)] :
            List (String × Nat)).map
          (fun i =>
            newArchiveName (mkKeeper stdLayout 10 2 0 0) i.1)).take
          (([("A", 1), ("B", 2), ("C", 3)] :
            List (String × Nat)).length - 2),
        s2.fs.lookup p = none) :=
  count_retention 2 [("A", 1), ("B", 2), ("C", 3)]
    ⟨mkKeeper stdLayout 10 2 0 0, fsOne [7]⟩
    (by decide) (by decide) (by decide) (by decide) rfl (by decide)
    ⟨⟨[7], 0⟩, by decide⟩ rfl (by decide) (by decide)

/-- C7 witness: reconfiguring an existing shared instance with a bad
template layout surfaces a configuration error and leaves the registry
unchanged. -/
theorem New_config_error_preserves_registry_witness :
    (New [.withName "x", .withMaxSize 42,
        .withArchiveNameLayout "\x7b\x7bbad"]
      [("x", mkKeeper stdLayout 10 0 0 0)] [] 0).1 =
      [("x", mkKeeper stdLayout 10 0 0 0)] :=
  New_config_error_preserves_registry
    [.withName "x", .withMaxSize 42, .withArchiveNameLayout "\x7b\x7bbad"]
    [("x", mkKeeper stdLayout 10 0 0 0)] [] 0
    (.wrap "failed to create new keeper"
      (.wrap "failed to apply option"
        (.wrap "failed to set archive name layout" .badTemplate)))
    (by decide) (by decide)

end Lorekeeper
